import Mathlib

/-!
Verification of the DeliverooAgent decision/coordination core.

This file gives a shallow embedding in Lean of the parts of the source that
the specification's claims are about, and proves (or refutes) each claim:

* `src/BDI - plans/pathfinding.js` — the A* pathfinder (`Pathfinding.AStar`);
* `src/Collaboration/handover_detector.js` — the bottleneck/handover analyzer;
* the coordination engine (`Coordination`: role assignment, intention yield,
  message handling, one-shot mode selection);
* the temporal `BanList`;
* `src/BDI - plans/intention.js` and the agent's `pickCandidateIntention`.

JS numbers used as grid coordinates are embedded as `Nat` (grid cells are
nonnegative integer pairs); agent positions, which the source always floors
with `Math.floor` before use, are embedded as `Int` (the beliefs use `-1`
as an initial sentinel).  JS `Map`s are embedded as association lists with
the insertion-order/update-in-place semantics of JS `Map`.
-/

/-- A grid cell, `{x, y}` in the source. -/
structure Cell where
  x : Nat
  y : Nat
deriving DecidableEq, Repr

/-- `manhattanDistance(x1, y1, x2, y2)` from `Utils/utils.js`:
`Math.abs(x1 - x2) + Math.abs(y1 - y2)`. -/
def manhattanDistance (x1 y1 x2 y2 : Int) : Nat :=
  (x1 - x2).natAbs + (y1 - y2).natAbs

/-- Manhattan distance between two grid cells. -/
def manhattan (a b : Cell) : Nat :=
  manhattanDistance a.x a.y b.x b.y

/-- The static grid (`Environment` of `Beliefs/environment.js`): a width,
a height and a reachability flag per cell (`Tile.reachable`); spawner and
delivery tiles are passed to the analyzer separately, as in the source. -/
structure Grid where
  width : Nat
  height : Nat
  reach : Cell → Bool

/-- `Environment.isValid(x, y)`. -/
def Grid.isValid (g : Grid) (c : Cell) : Bool :=
  decide (c.x < g.width) && decide (c.y < g.height)

/-- `Environment.isReachable(x, y)`: in bounds and the tile is reachable. -/
def Grid.isReachable (g : Grid) (c : Cell) : Bool :=
  g.isValid c && g.reach c

/-- The 4-neighbour candidate list in the direction order of
`Environment.buildNeighbors`: down `(0,+1)`, up `(0,-1)`, right `(+1,0)`,
left `(-1,0)`.  With `Nat` coordinates the two decrement directions exist
only when the coordinate is positive (in the source the decremented
coordinate `-1` simply fails the `isValid` bounds check). -/
def neighborCandidates (c : Cell) : List Cell :=
  [⟨c.x, c.y + 1⟩]
    ++ (if c.y = 0 then [] else [⟨c.x, c.y - 1⟩])
    ++ [⟨c.x + 1, c.y⟩]
    ++ (if c.x = 0 then [] else [⟨c.x - 1, c.y⟩])

/-- `Tile.getNeighbors()`: the reachable 4-neighbours, precomputed by
`Environment.buildNeighbors` in the direction order down, up, right, left. -/
def Grid.neighbors (g : Grid) (c : Cell) : List Cell :=
  (neighborCandidates c).filter (fun w => g.isReachable w)

/-- Association list embedding of a JS `Map` (`Map.set`): updating an
existing key replaces its value in place (keeping insertion order), a new
key is appended at the end. -/
def mapSet {K V : Type} [DecidableEq K] : List (K × V) → K → V → List (K × V)
  | [], k, v => [(k, v)]
  | e :: rest, k, v => if e.1 = k then (k, v) :: rest else e :: mapSet rest k v

/-- Association list embedding of a JS `Map.get` (first entry wins). -/
def mapGet {K V : Type} [DecidableEq K] : List (K × V) → K → Option V
  | [], _ => none
  | e :: rest, k => if e.1 = k then some e.2 else mapGet rest k

/-- The `BanList` of `Utils/banlist.js`: a cool-down set with an integer
tick timer.  `banned` maps a key to the tick until which it is banned. -/
structure BanList (K : Type) where
  duration : Nat
  timer : Nat
  banned : List (K × Nat)

/-- `BanList.ban(key)`: `banned.set(key, timer + duration)`. -/
def BanList.ban {K : Type} [DecidableEq K] (b : BanList K) (k : K) : BanList K :=
  { b with banned := mapSet b.banned k (b.timer + b.duration) }

/-- `BanList.cleanup()`: delete every entry with `timer >= until`. -/
def BanList.cleanup {K : Type} (b : BanList K) : BanList K :=
  { b with banned := b.banned.filter (fun e => !(decide (e.2 ≤ b.timer))) }

/-- `BanList.incrementTime()`: advance the timer by one tick, then purge
expired entries lazily. -/
def BanList.incrementTime {K : Type} (b : BanList K) : BanList K :=
  BanList.cleanup { b with timer := b.timer + 1 }

/-- `BanList.isBanned(key)`: an entry exists and `until > timer`. -/
def BanList.isBanned {K : Type} [DecidableEq K] (b : BanList K) (k : K) : Bool :=
  match mapGet b.banned k with
  | some u => decide (b.timer < u)
  | none => false

/-- Handover roles (`HANDOVER_ROLE` in `Collaboration/coordination.js`). -/
inductive HandoverRole
  | COLLECTOR
  | COURIER
  | UNDECIDED
deriving DecidableEq, Repr

/-- Coordination modes (`COORDINATION_MODE`). -/
inductive CoordinationMode
  | NORMAL
  | HANDOVER
deriving DecidableEq, Repr

/-- `Coordination.assignHandoverRole`, as a pure function of the data it
reads: own id and floored position, the partner id and last-known partner
position from the beliefs, and the chosen spawn tile.  Missing partner id
or position yield `UNDECIDED` (the source defers assignment). -/
def assignHandoverRole (myId : Nat) (partnerId : Option Nat)
    (myX myY : Int) (partnerPos : Option (Int × Int)) (spawn : Cell) : HandoverRole :=
  match partnerId with
  | none => HandoverRole.UNDECIDED
  | some pid =>
    match partnerPos with
    | none => HandoverRole.UNDECIDED
    | some p =>
      let myDistanceToSpawn := manhattanDistance myX myY spawn.x spawn.y
      let partnerDistanceToSpawn := manhattanDistance p.1 p.2 spawn.x spawn.y
      if myDistanceToSpawn < partnerDistanceToSpawn then HandoverRole.COLLECTOR
      else if myDistanceToSpawn > partnerDistanceToSpawn then HandoverRole.COURIER
      else if myId < pid then HandoverRole.COLLECTOR else HandoverRole.COURIER

/-- An announced intention (`INTENTION` message content): the target parcel
id, its position, and the announcing agent's computed utility.  Utilities
are embedded as integers; the source's `utility || 0` guard only replaces a
missing/NaN utility by `0` and is the identity on announced values. -/
structure IntentionMsg where
  parcelId : Nat
  x : Int
  y : Int
  utility : Int
deriving DecidableEq, Repr

/-- `Coordination.hasIntentionConflict`, as a pure function of the stored
own/partner intentions: both present and targeting the same parcel. -/
def hasIntentionConflict (mine partner : Option IntentionMsg) : Bool :=
  match mine, partner with
  | some m, some p => decide (m.parcelId = p.parcelId)
  | _, _ => false

/-- `Coordination.shouldYieldIntention`, as a pure function of the data it
reads: own id, `beliefs.partnerId`, and the two stored intentions.  Yield
iff there is a conflict and the partner has strictly higher utility, or
equal utility and a strictly lower id. -/
def shouldYieldIntention (myId : Nat) (partnerId : Option Nat)
    (mine partner : Option IntentionMsg) : Bool :=
  if !(hasIntentionConflict mine partner) then false
  else
    match mine, partner with
    | some m, some p =>
      if p.utility > m.utility then true
      else if p.utility = m.utility &&
          (match partnerId with
           | some pid => decide (pid < myId)
           | none => false) then true
      else false
    | _, _ => false

/-- The data of an `Intention` (`BDI - plans/intention.js`) that the
scheduler reads: the goal label, the scheduling priority and the lifecycle
flags. -/
structure IntentionRec where
  goal : String
  priority : Nat
  stopped : Bool
  completed : Bool
deriving DecidableEq, Repr

/-- `Intention.canBePreemptedBy(other)`: true iff `other` is present and
`other.priority > this.priority`. -/
def canBePreemptedBy (self : IntentionRec) (other : Option IntentionRec) : Bool :=
  match other with
  | none => false
  | some o => decide (self.priority < o.priority)

/-- The data that `DeliverooAgent.pickCandidateIntention` branches on, as a
per-tick snapshot: plan availability and status flags, the current
intention, and the outcome of the pickup target update.  `shouldYield`
stands for `this.coordination && this.coordination.shouldYieldIntention()`
(false when coordination is disabled), and `pickupTargetAfterUpdate` for
`this.plans.pickup.getTargetParcel()` being non-null after `updateTarget`. -/
structure PickSnapshot where
  hasHandoverPlan : Bool
  usePDDL : Bool
  hasPddlPlan : Bool
  pddlShouldAbort : Bool
  pddlIsExecuting : Bool
  hasParcel : Bool
  pddlCandidate : Bool
  currentIntention : Option IntentionRec
  shouldYield : Bool
  pickupTargetAfterUpdate : Bool

/-- The A*-plan tail of `DeliverooAgent.pickCandidateIntention` (the code
after the handover and PDDL branches), as a pure function of the snapshot:
deliver when carrying, else continue a live non-yielding pickup intention,
else a fresh pickup when a target parcel exists, else explore.
Failure-counter resets, the target announcement and the intention stop on
yield are side effects on other components and do not alter the returned
intention. -/
def pickCandidateFallback (s : PickSnapshot) : IntentionRec :=
  if s.hasParcel then ⟨"deliver", 3, false, false⟩
  else
    match s.currentIntention with
    | some cur =>
      if cur.goal == "pickup" && !cur.stopped && !cur.completed && !s.shouldYield then cur
      else if s.pickupTargetAfterUpdate then ⟨"pickup", 2, false, false⟩
      else ⟨"explore", 1, false, false⟩
    | none =>
      if s.pickupTargetAfterUpdate then ⟨"pickup", 2, false, false⟩
      else ⟨"explore", 1, false, false⟩

/-- `DeliverooAgent.pickCandidateIntention` proper: the handover branch,
the PDDL block (whose abort branch disables PDDL and falls through), and
otherwise the A* fallback above. -/
def pickCandidateIntention (s : PickSnapshot) : IntentionRec :=
  if s.hasHandoverPlan then ⟨"handover", 10, false, false⟩
  else
    match
      (if s.usePDDL && s.hasPddlPlan then
        if s.pddlShouldAbort then none
        else if s.pddlIsExecuting then some (⟨"pddl", 4, false, false⟩ : IntentionRec)
        else if !s.hasParcel && s.pddlCandidate then some ⟨"pddl", 4, false, false⟩
        else none
      else none) with
    | some i => i
    | none => pickCandidateFallback s

/-- A sensed agent snapshot in the beliefs (`Beliefs.agents` entries); the
position fields hold the raw (already floored where the source floors them)
coordinates. -/
structure AgentSnap where
  id : Nat
  x : Int
  y : Int
deriving DecidableEq, Repr

/-- Phases of the collision sub-protocol state machine. -/
inductive CollisionPhase
  | requesting
  | moving
  | proceeding
deriving DecidableEq, Repr

/-- `waitingFor` markers of the collision sub-protocol. -/
inductive WaitMarker
  | MOVED
  | END
deriving DecidableEq, Repr

/-- `Coordination.collisionState`. -/
structure CollisionState where
  active : Bool
  initiator : Bool
  phase : Option CollisionPhase
  waitingFor : Option WaitMarker
  startTime : Nat
deriving DecidableEq, Repr

/-- The reason label of a `HandoverConfig`. -/
inductive HandoverReason
  | single_path
  | bottleneck
deriving DecidableEq, Repr

/-- The output of the bottleneck analysis (`HandoverConfig`). -/
structure HandoverConfig where
  spawnTile : Cell
  deliveryTile : Cell
  handoverTile : Cell
  reason : HandoverReason
deriving DecidableEq, Repr

/-- The mutable state of a `Coordination` instance together with the
partner/agent beliefs it reads and writes (`Beliefs.partnerId`,
`partnerPosition`, `partnerConfirmed`, `agents`) and the constants it
consults (`beliefs.id`, own floored position, `MOVEMENT_DURATION`). -/
structure CoordState where
  mode : CoordinationMode
  handoverReason : Option HandoverReason
  collisionState : CollisionState
  myIntention : Option IntentionMsg
  partnerIntention : Option IntentionMsg
  handoverRole : HandoverRole
  partnerHandoverRole : Option HandoverRole
  spawnTile : Option Cell
  deliveryTile : Option Cell
  handoverTile : Option Cell
  partnerId : Option Nat
  partnerPosition : Option (Int × Int)
  partnerConfirmed : Bool
  agents : List AgentSnap
  selfId : Nat
  selfX : Int
  selfY : Int
  movementDuration : Nat
deriving DecidableEq, Repr

/-- `Beliefs.hasPartner()`: confirmed and the partner id is non-null. -/
def CoordState.hasPartner (s : CoordState) : Bool :=
  s.partnerConfirmed && s.partnerId.isSome

/-- The inactive collision state installed by `exitCollisionState`. -/
def emptyCollisionState : CollisionState :=
  { active := false, initiator := false, phase := none, waitingFor := none, startTime := 0 }

/-- Collision sub-protocol message payloads (`COLLISION` content). -/
inductive CollisionMsg
  | MOVE
  | MOVED (newPos : Cell)
  | END
deriving DecidableEq, Repr

/-- Peer messages (`MessageHeader` variants).  `HANDSHAKE` and
`HANDSHAKE_ACK` carry the sender record `{id, x, y}`; an ack may lack it
(the source then falls back to position `(-1, -1)`).  `PARCEL_INFO`
handling is commented out in the source dispatcher and is omitted. -/
inductive Msg
  | HANDSHAKE (sid : Nat) (sx sy : Int)
  | HANDSHAKE_ACK (sender : Option (Nat × Int × Int))
  | AGENT_INFO (agents : List AgentSnap)
  | INTENTION (i : IntentionMsg)
  | COLLISION (c : CollisionMsg)
  | HANDOVER_ROLE (role : HandoverRole) (handoverTile : Option Cell)
deriving DecidableEq, Repr

/-- `Beliefs.setPartner(partner)`: store id and position and set the
confirmed flag. -/
def CoordState.setPartner (s : CoordState) (pid : Nat) (px py : Int) : CoordState :=
  { s with partnerId := some pid, partnerPosition := some (px, py), partnerConfirmed := true }

/-- `Coordination.handleHandshake`: the first handshake received while
unpaired is accepted (the ack sent back is an external emission). -/
def handleHandshake (s : CoordState) (senderRecId : Nat) (sx sy : Int) : CoordState :=
  if s.hasPartner then s else s.setPartner senderRecId sx sy

/-- `Coordination.handleHandshakeAck`: adopt the acknowledger as partner if
still unpaired, then confirm if the sender is the chosen partner. -/
def handleHandshakeAck (s : CoordState) (senderId : Nat)
    (sender : Option (Nat × Int × Int)) : CoordState :=
  let s1 :=
    if s.partnerId.isNone then
      match sender with
      | some sn => s.setPartner senderId sn.2.1 sn.2.2
      | none => s.setPartner senderId (-1) (-1)
    else s
  if s1.partnerId = some senderId then { s1 with partnerConfirmed := true } else s1

/-- `Coordination.handleAgentInfo`: update the believed position of each
listed agent other than self, appending agents not seen before.  Note that
the source applies this to any sender. -/
def handleAgentInfo (s : CoordState) (incoming : List AgentSnap) : CoordState :=
  let newAgents :=
    incoming.foldl
      (fun acc a =>
        if a.id = s.selfId then acc
        else if acc.any (fun b => b.id = a.id) then
          acc.map (fun b => if b.id = a.id then { b with x := a.x, y := a.y } else b)
        else acc ++ [a])
      s.agents
  { s with agents := newAgents }

/-- `Coordination.handleIntention`: store the partner's announced intention,
partner senders only. -/
def handleIntention (s : CoordState) (senderId : Nat) (i : IntentionMsg) : CoordState :=
  if s.partnerId = some senderId then { s with partnerIntention := some i } else s

/-- `Coordination.findAdjacentFreeCell(x, y)` on a given grid: the first
reachable 4-neighbour (order right, left, down, up as in the source's
`adjacent` array) not occupied by another agent. -/
def findAdjacentFreeCell (g : Grid) (s : CoordState) (x y : Nat) : Option Cell :=
  ([⟨x + 1, y⟩] ++ (if x = 0 then [] else [⟨x - 1, y⟩])
      ++ [⟨x, y + 1⟩] ++ (if y = 0 then [] else [⟨x, y - 1⟩]) : List Cell).find?
    (fun c =>
      g.isReachable c &&
      !(s.agents.any (fun a =>
          !(decide (a.id = s.selfId)) && decide (a.x = (c.x : Int)) && decide (a.y = (c.y : Int)))))

/-- `Coordination.handleMoveRequest` (state effects only; the sidestep move
and the MOVED/END replies are external emissions): enter the non-initiator
`moving` state, and if no adjacent free cell exists, `endCollision`
immediately clears it again. -/
def handleMoveRequest (g : Grid) (s : CoordState) (now : Nat) : CoordState :=
  let s1 := { s with collisionState :=
    { active := true, initiator := false, phase := some CollisionPhase.moving,
      waitingFor := some WaitMarker.END, startTime := now } }
  match findAdjacentFreeCell g s1 s1.selfX.toNat s1.selfY.toNat with
  | none => { s1 with collisionState := emptyCollisionState }
  | some _ => s1

/-- `Coordination.handleCollision`: partner senders only; `MOVE` yields to
the id-priority rule when already an initiator waiting for `MOVED`. -/
def handleCollision (g : Grid) (s : CoordState) (senderId : Nat)
    (c : CollisionMsg) (now : Nat) : CoordState :=
  if !(s.partnerId = some senderId) then s
  else
    match c with
    | CollisionMsg.MOVE =>
      let iAmInitiatorWaiting :=
        s.collisionState.active && s.collisionState.initiator &&
          s.collisionState.waitingFor = some WaitMarker.MOVED
      if iAmInitiatorWaiting && decide (s.selfId < senderId) then s
      else handleMoveRequest g s now
    | CollisionMsg.MOVED _ =>
      if s.collisionState.initiator then
        { s with collisionState :=
            { s.collisionState with phase := some CollisionPhase.proceeding, waitingFor := none } }
      else s
    | CollisionMsg.END => { s with collisionState := emptyCollisionState }

/-- `Coordination.handleHandoverRole`: partner senders only; store the
partner's announced role (a role conflict is logged, not corrected). -/
def handleHandoverRole (s : CoordState) (senderId : Nat) (role : HandoverRole) : CoordState :=
  if s.partnerId = some senderId then { s with partnerHandoverRole := some role } else s

/-- `Coordination.handleMessage`: dispatch on the message header.  The
`now` argument supplies `Date.now()` to the collision handlers. -/
def handleMessage (g : Grid) (s : CoordState) (senderId : Nat) (m : Msg) (now : Nat) : CoordState :=
  match m with
  | Msg.HANDSHAKE sid sx sy => handleHandshake s sid sx sy
  | Msg.HANDSHAKE_ACK sender => handleHandshakeAck s senderId sender
  | Msg.AGENT_INFO l => handleAgentInfo s l
  | Msg.INTENTION i => handleIntention s senderId i
  | Msg.COLLISION c => handleCollision g s senderId c now
  | Msg.HANDOVER_ROLE role _ => handleHandoverRole s senderId role

/-- The obstacle-policy options of `Pathfinding.AStar` (`options`):
`ignoreAgents` ignores every agent, `ignoreAgentIds` ignores a named
subset, the default treats every other agent as an obstacle. -/
structure AStarOptions where
  ignoreAgents : Bool := false
  ignoreAgentIds : Option (List Nat) := none
deriving DecidableEq, Repr

/-- `isCellBlocked(x, y)` inside `Pathfinding.AStar`: a cell is blocked iff
agents are not ignored and some believed agent other than self, and not in
the ignored set, stands (floored) on the cell. -/
def isCellBlocked (selfId : Nat) (agents : List AgentSnap) (opts : AStarOptions)
    (c : Cell) : Bool :=
  if opts.ignoreAgents then false
  else
    agents.any (fun a =>
      !(decide (a.id = selfId)) &&
      (match opts.ignoreAgentIds with
       | some ids => !(ids.contains a.id)
       | none => true) &&
      decide (a.x = (c.x : Int)) && decide (a.y = (c.y : Int)))

/-- A search node of `Pathfinding.AStar` (`class Node`).  Instead of the
source's parent pointer the node carries the reconstructed path (the cells
after the start, ending at `pos`); parents are frozen once expanded, so the
carried path is exactly what `reconstructPath` would later rebuild. -/
structure ANode where
  pos : Cell
  g : Nat
  h : Nat
  path : List Cell
deriving DecidableEq, Repr

/-- `f = g + h`. -/
def ANode.f (n : ANode) : Nat := n.g + n.h

/-- One frontier-scan step of `Pathfinding.AStar`: a candidate strictly
improves on the current best iff `f` is smaller, or `f` ties and `h` is
smaller. -/
def betterNode (cand best : ANode) : Bool :=
  decide (cand.f < best.f) || (decide (cand.f = best.f) && decide (cand.h < best.h))

/-- The frontier scan of `Pathfinding.AStar` (`for i in 1..`): the leftmost
node minimal in the lexicographic `(f, h)` order. -/
def selectMin (first : ANode) (rest : List ANode) : ANode :=
  rest.foldl (fun best n => if betterNode n best then n else best) first

/-- Relaxation of one neighbour `w` of the node `cur` being expanded:
skip blocked or already-explored cells; insert a fresh node at the frontier
end; lower an existing entry in place when `cur.g + 1` improves on it.
(The source keeps the frontier array and the `bestInFrontier` map in
lock-step — every push pairs with a `set`, every splice with a `delete`,
and in-place mutation updates the shared node object — so a single
association list represents both; the stale-entry guard of the source can
then never fire.) -/
def relaxNeighbor (blocked : Cell → Bool) (target : Cell) (cur : ANode)
    (explored : List ANode) (frontier : List ANode) (w : Cell) : List ANode :=
  if blocked w then frontier
  else if explored.any (fun n => n.pos = w) then frontier
  else if frontier.any (fun n => n.pos = w) then
    frontier.map (fun n =>
      if decide (n.pos = w) && decide (cur.g + 1 < n.g) then
        { pos := w, g := cur.g + 1, h := manhattan w target, path := cur.path ++ [w] }
      else n)
  else frontier ++ [{ pos := w, g := cur.g + 1, h := manhattan w target, path := cur.path ++ [w] }]

/-- The main loop of `Pathfinding.AStar`.  Each non-returning iteration
moves one node from the frontier to the explored set, so on a
`width × height` grid the loop runs at most `width * height` times; the
`fuel` argument makes this bound explicit (fuel exhaustion, returning
`none`, is proved unreachable for in-bounds starts). -/
def astarLoop (g : Grid) (blocked : Cell → Bool) (target : Cell) :
    Nat → List ANode → List ANode → Option (List Cell)
  | 0, _, _ => none
  | _ + 1, [], _ => some []
  | fuel + 1, first :: rest, explored =>
    let cur := selectMin first rest
    if cur.pos = target then some cur.path
    else
      let frontier1 := (first :: rest).eraseP (fun n => decide (n.pos = cur.pos))
      let explored1 := cur :: explored
      let frontier2 := (g.neighbors cur.pos).foldl
        (relaxNeighbor blocked target cur explored1) frontier1
      astarLoop g blocked target fuel frontier2 explored1

/-- The start node: `g = 0`, `h` the Manhattan heuristic, empty path. -/
def startNode (s target : Cell) : ANode :=
  { pos := s, g := 0, h := manhattan s target, path := [] }

/-- `Pathfinding.AStar(start_x, start_y, target_x, target_y, options)` for
a given blocked-cell predicate: the ordered cell sequence excluding the
start (via `reconstructPath`), or `[]` when the frontier empties. -/
def AStar (g : Grid) (blocked : Cell → Bool) (s target : Cell) : List Cell :=
  (astarLoop g blocked target (g.width * g.height + 1) [startNode s target] []).getD []

/-- `AStar` under an obstacle policy. -/
def AStarWith (g : Grid) (selfId : Nat) (agents : List AgentSnap)
    (opts : AStarOptions) (s target : Cell) : List Cell :=
  AStar g (isCellBlocked selfId agents opts) s target

/-- `AStar` with `{ ignoreAgents: true }`, as the handover detector invokes
it: the `isCellBlocked` closure then returns `false` before ever consulting
the agent list, so the blocked predicate is constantly false. -/
def AStarIgnore (g : Grid) (s target : Cell) : List Cell :=
  AStar g (fun _ => false) s target

/-- The path-building loop of `HandoverDetector.detectBottleneck`: for each
spawn (outer loop) and each delivery (inner loop), the agent-ignoring A*
path; pairs with an empty path are discarded.  Each kept entry records the
path together with its spawn/delivery pair. -/
def detectorPaths (g : Grid) (spawns deliveries : List Cell) :
    List (List Cell × Cell × Cell) :=
  spawns.flatMap (fun sp =>
    deliveries.filterMap (fun dl =>
      let p := AStarIgnore g sp dl
      if p.isEmpty then none else some (p, sp, dl)))

/-- The path lists of `detectorPaths` (what the tile-counting loop reads). -/
def detectorPathLists (g : Grid) (spawns deliveries : List Cell) : List (List Cell) :=
  (detectorPaths g spawns deliveries).map (fun t => t.1)

/-- Counting one path into the tile-count map: each tile of the path is
counted once, the `seenInThisPath` set suppressing revisits within the same
path. -/
def addPathCounts (m : List (Cell × Nat)) (path : List Cell) : List (Cell × Nat) :=
  (path.foldl
    (fun acc tile =>
      if acc.2.contains tile then acc
      else (mapSet acc.1 tile ((mapGet acc.1 tile).getD 0 + 1), tile :: acc.2))
    (m, [])).1

/-- The `tileCounts` map of `detectBottleneck`: how many of the given paths
contain each tile (at most once per path), in first-occurrence order. -/
def tileCounts (paths : List (List Cell)) : List (Cell × Nat) :=
  paths.foldl addPathCounts []

/-- The `bottleneckTiles` array: tiles whose count equals the total number
of paths (present in every spawn→delivery route), in map order. -/
def bottleneckTiles (paths : List (List Cell)) : List Cell :=
  (tileCounts paths).filterMap (fun e => if e.2 = paths.length then some e.1 else none)

/-- The `narrowBottlenecks` filter: keep bottleneck tiles with at most two
reachable neighbours. -/
def narrowBottlenecks (g : Grid) (paths : List (List Cell)) : List Cell :=
  (bottleneckTiles paths).filter (fun c => decide ((g.neighbors c).length ≤ 2))

/-- `HandoverDetector.calculateCentroid`: the coordinate-wise
`Math.round(sum / count)` of a tile set; `(0, 0)` for the empty set.
(`Math.round` on a nonnegative rational is `⌊x + 1/2⌋`, here
`(2 * sum + count) / (2 * count)` in integer division.) -/
def calculateCentroid (tiles : List Cell) : Cell :=
  match tiles with
  | [] => ⟨0, 0⟩
  | _ =>
    let sumX := (tiles.map (fun t => t.x)).sum
    let sumY := (tiles.map (fun t => t.y)).sum
    ⟨(2 * sumX + tiles.length) / (2 * tiles.length),
     (2 * sumY + tiles.length) / (2 * tiles.length)⟩

/-- `HandoverDetector.findClosestTile`: the first tile of the list at
minimal Manhattan distance from the reference position (strict-improvement
scan starting from the first element), `none` for the empty list. -/
def findClosestTile (tiles : List Cell) (position : Cell) : Option Cell :=
  match tiles with
  | [] => none
  | t0 :: _ =>
    some (tiles.foldl
      (fun closest tile =>
        if manhattan tile position < manhattan closest position then tile else closest)
      t0)

/-- The handover-tile selection scan of `detectBottleneck`: the first
narrow-bottleneck tile at minimal Manhattan distance from the ideal
midpoint (strict-improvement scan starting from `narrowBottlenecks[0]`). -/
def pickBestHandover (idealMidpoint : Cell) (h0 : Cell) (narrow : List Cell) : Cell :=
  narrow.foldl
    (fun best tile =>
      if manhattan idealMidpoint tile < manhattan idealMidpoint best then tile else best)
    h0

/-- `HandoverDetector.detectBottleneck(spawns, deliveries)`.  The outer
`Option` distinguishes normal termination (`some`) from the undefined
access the source makes when the representative path is empty: there
`primaryPath[midpointIndex]` is `undefined` and the following
`manhattanDistance(idealMidpoint.x, …)` throws a `TypeError`; this
embedding returns `none` for that crash.  `some none` is the source's
`null` (no bottleneck).  The `single_path` label compares
`bottleneckTiles.length >= primaryPath.length * 0.8`, embedded exactly as
the rational comparison `10 * count ≥ 8 * length` (the label is
informational only). -/
def detectBottleneck (g : Grid) (spawns deliveries : List Cell) :
    Option (Option HandoverConfig) :=
  let allPaths := detectorPaths g spawns deliveries
  if allPaths.isEmpty then some none
  else
    let paths := allPaths.map (fun t => t.1)
    let bTiles := bottleneckTiles paths
    if bTiles.isEmpty then some none
    else
      let narrow := narrowBottlenecks g paths
      match narrow with
      | [] => some none
      | h0 :: _ =>
        match findClosestTile spawns (calculateCentroid spawns),
            findClosestTile deliveries (calculateCentroid deliveries) with
        | some representativeSpawn, some representativeDelivery =>
          let primaryPath := AStarIgnore g representativeSpawn representativeDelivery
          let midpointIndex := primaryPath.length / 2
          match primaryPath.get? midpointIndex with
          | none => none
          | some idealMidpoint =>
            let bestHandover := pickBestHandover idealMidpoint h0 narrow
            let reason :=
              if 10 * bTiles.length ≥ 8 * primaryPath.length then HandoverReason.single_path
              else HandoverReason.bottleneck
            some (some
              { spawnTile := representativeSpawn, deliveryTile := representativeDelivery,
                handoverTile := bestHandover, reason := reason })
        | _, _ => some none

/-- `HandoverDetector.isHandoverPointFeasible`: the handover tile is
reachable, allows pass-through (at least two reachable neighbours), and the
agent-ignoring paths spawn→handover and handover→delivery are non-empty. -/
def isHandoverPointFeasible (g : Grid) (spawnTile deliveryTile handoverTile : Cell) : Bool :=
  g.isReachable handoverTile &&
  !(decide ((g.neighbors handoverTile).length < 2)) &&
  !(AStarIgnore g spawnTile handoverTile).isEmpty &&
  !(AStarIgnore g handoverTile deliveryTile).isEmpty

/-- `HandoverDetector.shouldUseHandover(spawns, deliveries)`: the
bottleneck result gated by the final feasibility check (fail closed to
`null`); a crash in `detectBottleneck` propagates. -/
def shouldUseHandover (g : Grid) (spawns deliveries : List Cell) :
    Option (Option HandoverConfig) :=
  match detectBottleneck g spawns deliveries with
  | none => none
  | some none => some none
  | some (some bottleneckResult) =>
    if isHandoverPointFeasible g bottleneckResult.spawnTile
        bottleneckResult.deliveryTile bottleneckResult.handoverTile then
      some (some bottleneckResult)
    else some none

/-- `Coordination.initializeHandoverMode(spawn, delivery, handover, reason)`
followed by the `assignHandoverRole()` it invokes: switch to HANDOVER mode,
store the configuration, then compute the role from the stored data (the
role announcement to the partner is an external emission). -/
def initializeHandoverMode (s : CoordState) (cfg : HandoverConfig) : CoordState :=
  let s1 := { s with
    mode := CoordinationMode.HANDOVER,
    spawnTile := some cfg.spawnTile,
    deliveryTile := some cfg.deliveryTile,
    handoverTile := some cfg.handoverTile,
    handoverReason := some cfg.reason }
  { s1 with handoverRole :=
      assignHandoverRole s1.selfId s1.partnerId s1.selfX s1.selfY s1.partnerPosition cfg.spawnTile }

/-- `Coordination.detectCoordinationMode()`: runs only while the mode is
still NORMAL and a confirmed partner exists; on a bottleneck config switch
to handover mode.  A crash of the detector (`none`) propagates as a thrown
exception before any state is written, so the state is unchanged. -/
def detectCoordinationMode (g : Grid) (spawns deliveries : List Cell)
    (s : CoordState) : CoordState :=
  if s.mode ≠ CoordinationMode.NORMAL then s
  else if s.partnerId.isNone || !s.partnerConfirmed then s
  else
    match shouldUseHandover g spawns deliveries with
    | none => s
    | some none => s
    | some (some handoverConfig) => initializeHandoverMode s handoverConfig

/-- `Coordination.reset()`: `beliefs.clearPartner()` (partner id and
confirmation; the last-known partner position is not cleared by the
source), back to NORMAL mode, collision state and intentions cleared,
roles reset.  The stored spawn/delivery/handover tiles are not reset by
the source. -/
def resetCoordination (s : CoordState) : CoordState :=
  { s with
    partnerId := none,
    partnerConfirmed := false,
    mode := CoordinationMode.NORMAL,
    handoverReason := none,
    collisionState := emptyCollisionState,
    myIntention := none,
    partnerIntention := none,
    handoverRole := HandoverRole.UNDECIDED,
    partnerHandoverRole := none }

/-- `Coordination.announceIntention(intention)`: store the own intention
(and send it to the partner — external) when partnered. -/
def announceIntention (s : CoordState) (i : IntentionMsg) : CoordState :=
  if s.partnerId.isNone then s else { s with myIntention := some i }

/-- `Coordination.clearIntention()`. -/
def clearIntention (s : CoordState) : CoordState :=
  { s with myIntention := none }

/-- `Coordination.initiateCollisionResolution(context)`: while an
unexpired collision session is active do nothing; otherwise (no session,
or the previous one timed out) become the initiator waiting for MOVED. -/
def initiateCollisionResolution (s : CoordState) (now : Nat) : CoordState :=
  if s.collisionState.active &&
      !(decide (s.movementDuration * 2 < now - s.collisionState.startTime)) then s
  else
    { s with collisionState :=
        { active := true, initiator := true, phase := some CollisionPhase.requesting,
          waitingFor := some WaitMarker.MOVED, startTime := now } }

/-- `Coordination.endCollision()` (state effects; the END message is an
external emission). -/
def endCollision (s : CoordState) : CoordState :=
  if !s.collisionState.active then s else { s with collisionState := emptyCollisionState }

/-- The auto-reset performed by `Coordination.isInCollision()` when the
collision session is stuck past its timeout. -/
def collisionAutoReset (s : CoordState) (now : Nat) : CoordState :=
  if s.collisionState.active &&
      decide (s.movementDuration * 2 < now - s.collisionState.startTime) then
    { s with collisionState := emptyCollisionState }
  else s

/-- The state-changing operations of a `Coordination` session.  `message`
is the receipt of a peer message, `detectMode` the orchestrator's one-shot
mode detection, the rest the public mutators. -/
inductive CoordOp
  | message (senderId : Nat) (m : Msg) (now : Nat)
  | detectMode
  | announce (i : IntentionMsg)
  | clearIntentionOp
  | initiateCollision (now : Nat)
  | endCollisionOp
  | collisionCheck (now : Nat)
  | reset
deriving DecidableEq, Repr

/-- One `Coordination` operation, over a fixed static environment
(grid, spawner tiles, delivery tiles). -/
def stepCoord (g : Grid) (spawns deliveries : List Cell) (s : CoordState) :
    CoordOp → CoordState
  | CoordOp.message sid m now => handleMessage g s sid m now
  | CoordOp.detectMode => detectCoordinationMode g spawns deliveries s
  | CoordOp.announce i => announceIntention s i
  | CoordOp.clearIntentionOp => clearIntention s
  | CoordOp.initiateCollision now => initiateCollisionResolution s now
  | CoordOp.endCollisionOp => endCollision s
  | CoordOp.collisionCheck now => collisionAutoReset s now
  | CoordOp.reset => resetCoordination s

/-- A walk on the grid, as the pathfinder's output represents one: `p`
lists the cells after the start `s`, each a reachable 4-neighbour of its
predecessor and not blocked (the start cell itself is never checked by the
source). -/
def isWalk (g : Grid) (blocked : Cell → Bool) : Cell → List Cell → Prop
  | _, [] => True
  | s, c :: rest => c ∈ g.neighbors s ∧ blocked c = false ∧ isWalk g blocked c rest

instance (g : Grid) (blocked : Cell → Bool) : ∀ s p, Decidable (isWalk g blocked s p)
  | _, [] => .isTrue trivial
  | _, c :: rest =>
    have : Decidable (isWalk g blocked c rest) := instDecidableIsWalk g blocked c rest
    inferInstanceAs (Decidable (_ ∧ _ ∧ _))

/-- The last cell of a walk (the start itself for the empty walk). -/
def endOf (s : Cell) (p : List Cell) : Cell := p.getLast?.getD s

/-- A 1×n corridor grid: every in-bounds cell of the single row reachable. -/
def corridorGrid (n : Nat) : Grid :=
  { width := n, height := 1, reach := fun _ => true }

/-- The straight row path from `(a,0)` to `(b,0)` excluding the start:
cells `(a+1,0), …, (b,0)`. -/
def rowPath (a b : Nat) : List Cell :=
  (List.range (b - a)).map (fun i => ⟨a + 1 + i, 0⟩)

/-- A 3×3 map with two disjoint 1-wide corridors (rows 0 and 2); the middle
row is unreachable. -/
def twoCorridorGrid : Grid :=
  { width := 3, height := 3, reach := fun c => !(decide (c.y = 1)) }

/-- A 6×3 map whose reachable cells are the corridor `(0,0)–(2,0)` and the
isolated spawner cell `(5,2)`: spawn `(0,0)` reaches delivery `(2,0)`, but
the representative spawn (the one nearest the spawn centroid) is `(5,2)`,
which reaches nothing. -/
def crashGrid : Grid :=
  { width := 6, height := 3,
    reach := fun c => (decide (c.y = 0) && decide (c.x ≤ 2)) || (decide (c.x = 5) && decide (c.y = 2)) }

/-- The per-node invariant of the A* loop: the heuristic field is the
Manhattan heuristic of the node's cell, and the carried path is a real
walk of length `g` from the start ending at the node's cell. -/
def nodeOK (g : Grid) (blocked : Cell → Bool) (s t : Cell) (n : ANode) : Prop :=
  n.h = manhattan n.pos t ∧ n.g = n.path.length ∧
  isWalk g blocked s n.path ∧ endOf s n.path = n.pos

/-- The loop invariant of `astarLoop`: all nodes are well-formed with
distinct in-bounds cells, frontier and explored sets are disjoint, closed
nodes carry minimal `g` and have all their edges relaxed, the start cell
is always represented with `g = 0`, and the target is never closed. -/
structure AInv (g : Grid) (blocked : Cell → Bool) (s t : Cell)
    (frontier explored : List ANode) : Prop where
  nodesOK : ∀ n ∈ frontier ++ explored, nodeOK g blocked s t n
  frontierKeysNodup : (frontier.map ANode.pos).Nodup
  exploredKeysNodup : (explored.map ANode.pos).Nodup
  disjoint : ∀ n ∈ frontier, ∀ m ∈ explored, n.pos ≠ m.pos
  validAll : ∀ n ∈ frontier ++ explored, g.isValid n.pos = true
  closedMinimal : ∀ n ∈ explored, ∀ q, isWalk g blocked s q → endOf s q = n.pos →
    n.g ≤ q.length
  closedRelaxed : ∀ n ∈ explored, ∀ w ∈ g.neighbors n.pos, blocked w = false →
    (∃ m ∈ explored, m.pos = w) ∨ (∃ m ∈ frontier, m.pos = w ∧ m.g ≤ n.g + 1)
  startIn : ∃ n ∈ frontier ++ explored, n.pos = s ∧ n.g = 0
  targetNotClosed : ∀ n ∈ explored, n.pos ≠ t

/-! ### Association map lemmas -/

theorem mapGet_mapSet_self {K V : Type} [DecidableEq K] (l : List (K × V)) (k : K) (v : V) :
    mapGet (mapSet l k v) k = some v := by
  induction l with
  | nil => simp [mapSet, mapGet]
  | cons e rest ih =>
    by_cases h : e.1 = k
    · simp [mapSet, mapGet, h]
    · simp [mapSet, mapGet, h, ih]

theorem mapGet_mapSet_ne {K V : Type} [DecidableEq K] (l : List (K × V)) (k k' : K) (v : V)
    (hne : k' ≠ k) : mapGet (mapSet l k v) k' = mapGet l k' := by
  have hne2 : ¬(k = k') := fun h => hne h.symm
  induction l with
  | nil => simp [mapSet, mapGet, hne2]
  | cons e rest ih =>
    by_cases h : e.1 = k
    · subst h
      simp [mapSet, mapGet, hne2]
    · simp only [mapSet, h, if_false]
      by_cases h2 : e.1 = k'
      · simp [mapGet, h2]
      · simp [mapGet, h2, ih]

theorem mapSet_keys {K V : Type} [DecidableEq K] (l : List (K × V)) (k : K) (v : V) :
    (mapSet l k v).map Prod.fst =
      if k ∈ l.map Prod.fst then l.map Prod.fst else l.map Prod.fst ++ [k] := by
  induction l with
  | nil => simp [mapSet]
  | cons e rest ih =>
    by_cases h : e.1 = k
    · simp [mapSet, h]
    · have hke : ¬(k = e.1) := fun hh => h hh.symm
      simp only [mapSet, h, if_false, List.map_cons, ih, List.mem_cons]
      by_cases h2 : k ∈ rest.map Prod.fst <;> simp [h2, hke]

theorem mapSet_keys_nodup {K V : Type} [DecidableEq K] (l : List (K × V)) (k : K) (v : V)
    (h : (l.map Prod.fst).Nodup) : ((mapSet l k v).map Prod.fst).Nodup := by
  rw [mapSet_keys]
  by_cases h2 : k ∈ l.map Prod.fst
  · simpa [h2]
  · simp only [h2, if_false]
    exact List.Nodup.append h (List.nodup_singleton k) (by simpa using h2)

theorem mapGet_eq_none {K V : Type} [DecidableEq K] (l : List (K × V)) (k : K)
    (h : k ∉ l.map Prod.fst) : mapGet l k = none := by
  induction l with
  | nil => rfl
  | cons e rest ih =>
    simp only [List.map_cons, List.mem_cons] at h
    push_neg at h
    have he : ¬(e.1 = k) := fun hh => h.1 hh.symm
    simp [mapGet, he, ih h.2]

theorem mapGet_filter {K V : Type} [DecidableEq K] (l : List (K × V)) (p : K × V → Bool)
    (k : K) (h : (l.map Prod.fst).Nodup) :
    mapGet (l.filter p) k =
      match mapGet l k with
      | some v => if p (k, v) then some v else none
      | none => none := by
  induction l with
  | nil => rfl
  | cons e rest ih =>
    simp only [List.map_cons, List.nodup_cons] at h
    by_cases he : e.1 = k
    · subst he
      have hnone : mapGet (rest.filter p) e.1 = none := by
        apply mapGet_eq_none
        intro hmem
        rcases List.mem_map.mp hmem with ⟨e2, he2, he2k⟩
        exact h.1 (List.mem_map.mpr ⟨e2, List.mem_of_mem_filter he2, he2k⟩)
      by_cases hp : p e
      · simp [List.filter_cons, hp, mapGet]
      · have hfil : (e :: rest).filter p = rest.filter p := by
          simp [List.filter_cons, hp]
        rw [hfil, hnone]
        simp [mapGet, hp]
    · by_cases hp : p e
      · simp [List.filter_cons, hp, mapGet, he, ih h.2]
      · have hfil : (e :: rest).filter p = rest.filter p := by
          simp [List.filter_cons, hp]
        rw [hfil, ih h.2]
        simp [mapGet, he]

/-! ### BanList (claim C6) -/

theorem banlist_state {K : Type} [DecidableEq K] (b : BanList K) (k : K)
    (hb : (b.banned.map Prod.fst).Nodup) (n : Nat) :
    ((BanList.incrementTime (K := K))^[n] (b.ban k)).duration = b.duration ∧
    ((BanList.incrementTime (K := K))^[n] (b.ban k)).timer = b.timer + n ∧
    ((((BanList.incrementTime (K := K))^[n] (b.ban k)).banned.map Prod.fst).Nodup) ∧
    (mapGet (((BanList.incrementTime (K := K))^[n] (b.ban k)).banned) k =
      if n = 0 ∨ n < b.duration then some (b.timer + b.duration) else none) := by
  induction n with
  | zero =>
    refine ⟨rfl, by simp [BanList.ban], mapSet_keys_nodup _ _ _ hb, ?_⟩
    simp [BanList.ban, mapGet_mapSet_self]
  | succ n ih =>
    obtain ⟨ihd, iht, ihn, ihg⟩ := ih
    rw [Function.iterate_succ_apply']
    set sn := (BanList.incrementTime (K := K))^[n] (b.ban k) with hsn
    refine ⟨ihd, by simp [BanList.incrementTime, BanList.cleanup, iht, Nat.add_assoc], ?_, ?_⟩
    · have hsub : ((sn.banned.filter (fun e => !(decide (e.2 ≤ sn.timer + 1)))).map Prod.fst).Sublist
          (sn.banned.map Prod.fst) := (List.filter_sublist sn.banned).map Prod.fst
      exact List.Nodup.sublist hsub ihn
    · have hget := mapGet_filter sn.banned (fun e => !(decide (e.2 ≤ sn.timer + 1))) k ihn
      simp only [BanList.incrementTime, BanList.cleanup]
      rw [hget, ihg]
      by_cases hc : n = 0 ∨ n < b.duration
      · simp only [hc, if_true]
        by_cases hc2 : n + 1 < b.duration
        · have : ¬(b.timer + b.duration ≤ sn.timer + 1) := by
            rw [iht]; omega
          simp [this, hc2]
        · have : b.timer + b.duration ≤ sn.timer + 1 := by
            rw [iht]; omega
          simp [this, hc2]
      · have hc2 : ¬(n + 1 < b.duration) := by omega
        have hc3 : ¬(n + 1 = 0 ∨ n + 1 < b.duration) := by omega
        simp [hc, hc2, hc3]

/-- **C6.** For every `BanList` (with well-formed map keys) and every key
banned while the internal timer reads `t`, `isBanned(key)` is true exactly
at the timer values `t + n` with `n < duration` — so banned through every
tick `t ≤ timer < t + duration` and never unbanned earlier — and the key is
unbanned from the `duration`-th `incrementTime` call after the ban on. -/
theorem banlist_ban_duration_contract {K : Type} [DecidableEq K] (b : BanList K) (k : K)
    (hb : (b.banned.map Prod.fst).Nodup) (n : Nat) :
    ((BanList.incrementTime (K := K))^[n] (b.ban k)).timer = b.timer + n ∧
    (((BanList.incrementTime (K := K))^[n] (b.ban k)).isBanned k = true ↔ n < b.duration) := by
  obtain ⟨_, ht, _, hg⟩ := banlist_state b k hb n
  refine ⟨ht, ?_⟩
  rw [BanList.isBanned, hg]
  by_cases hc : n = 0 ∨ n < b.duration
  · simp only [hc, if_true, ht]
    constructor
    · intro h
      simp only [decide_eq_true_eq] at h
      omega
    · intro h
      simp only [decide_eq_true_eq]
      omega
  · have h1 : ¬(n < b.duration) := by omega
    have h2 : ¬(n = 0) := by omega
    simp [hc, h1, h2]

/-- Witness for C6 at a concrete ban list (duration 3, timer 5, key 7). -/
theorem banlist_ban_duration_contract_witness :
    ((([] : List (Nat × Nat)).map Prod.fst).Nodup) ∧
    (((BanList.incrementTime (K := Nat))^[2]
        ((⟨3, 5, []⟩ : BanList Nat).ban 7)).timer = 5 + 2 ∧
      (((BanList.incrementTime (K := Nat))^[2]
          ((⟨3, 5, []⟩ : BanList Nat).ban 7)).isBanned 7 = true ↔ 2 < 3)) :=
  ⟨by simp, banlist_ban_duration_contract ⟨3, 5, []⟩ 7 (by simp) 2⟩

/-! ### Role assignment (claim C4) and intention yield (claim C5) -/

/-- **C4.** For every spawn tile, every pair of distinct agent ids and
every pair of position snapshots the two agents agree on, running
`assignHandoverRole` independently on both sides yields complementary
roles: the strictly closer agent (Manhattan distance to the spawn tile)
becomes COLLECTOR, on an exact tie the lower id becomes COLLECTOR, and two
COLLECTORs or two COURIERs are impossible. -/
theorem assign_handover_role_complementary (spawn : Cell) (idA idB : Nat)
    (hne : idA ≠ idB) (pA pB : Int × Int) :
    ((assignHandoverRole idA (some idB) pA.1 pA.2 (some pB) spawn = HandoverRole.COLLECTOR ∧
      assignHandoverRole idB (some idA) pB.1 pB.2 (some pA) spawn = HandoverRole.COURIER) ∨
     (assignHandoverRole idA (some idB) pA.1 pA.2 (some pB) spawn = HandoverRole.COURIER ∧
      assignHandoverRole idB (some idA) pB.1 pB.2 (some pA) spawn = HandoverRole.COLLECTOR)) ∧
    (manhattanDistance pA.1 pA.2 spawn.x spawn.y < manhattanDistance pB.1 pB.2 spawn.x spawn.y →
      assignHandoverRole idA (some idB) pA.1 pA.2 (some pB) spawn = HandoverRole.COLLECTOR) ∧
    (manhattanDistance pA.1 pA.2 spawn.x spawn.y = manhattanDistance pB.1 pB.2 spawn.x spawn.y →
      (assignHandoverRole idA (some idB) pA.1 pA.2 (some pB) spawn = HandoverRole.COLLECTOR ↔
        idA < idB)) := by
  have htri := Nat.lt_trichotomy (manhattanDistance pA.1 pA.2 spawn.x spawn.y)
    (manhattanDistance pB.1 pB.2 spawn.x spawn.y)
  simp only [assignHandoverRole]
  rcases htri with h | h | h
  · have h2 : ¬(manhattanDistance pB.1 pB.2 spawn.x spawn.y <
        manhattanDistance pA.1 pA.2 spawn.x spawn.y) := Nat.lt_asymm h
    simp [h, h2, gt_iff_lt, Nat.ne_of_lt h]
  · have h2 : ¬(manhattanDistance pA.1 pA.2 spawn.x spawn.y <
        manhattanDistance pB.1 pB.2 spawn.x spawn.y) := by omega
    have h3 : ¬(manhattanDistance pB.1 pB.2 spawn.x spawn.y <
        manhattanDistance pA.1 pA.2 spawn.x spawn.y) := by omega
    rcases Nat.lt_trichotomy idA idB with hi | hi | hi
    · simp [h, h2, h3, gt_iff_lt, hi, Nat.lt_asymm hi]
    · exact absurd hi hne
    · simp [h, h2, h3, gt_iff_lt, hi, Nat.lt_asymm hi, Nat.not_lt_of_gt hi]
  · have h2 : ¬(manhattanDistance pA.1 pA.2 spawn.x spawn.y <
        manhattanDistance pB.1 pB.2 spawn.x spawn.y) := Nat.lt_asymm h
    simp [h, h2, gt_iff_lt]
    omega

/-- Witness for C4: ids 1 and 2 at distinct positions. -/
theorem assign_handover_role_complementary_witness :
    ((1 : Nat) ≠ 2) ∧
    ((assignHandoverRole 1 (some 2) 0 0 (some (3, 0)) ⟨0, 0⟩ = HandoverRole.COLLECTOR ∧
      assignHandoverRole 2 (some 1) 3 0 (some (0, 0)) ⟨0, 0⟩ = HandoverRole.COURIER) ∨
     (assignHandoverRole 1 (some 2) 0 0 (some (3, 0)) ⟨0, 0⟩ = HandoverRole.COURIER ∧
      assignHandoverRole 2 (some 1) 3 0 (some (0, 0)) ⟨0, 0⟩ = HandoverRole.COLLECTOR)) :=
  ⟨by decide,
    (assign_handover_role_complementary ⟨0, 0⟩ 1 2 (by decide) (0, 0) (3, 0)).1⟩

/-- **C5.** For two distinct agents whose announced intentions carry the
same parcel id and utilities `ua`, `ub`, evaluating `shouldYieldIntention`
on both sides makes exactly one agent yield: the one with strictly lower
utility, or on an exact utility tie the one with the numerically larger id
(so the lower id always wins ties).  Both sides evaluate the same pure
function of the exchanged snapshots, so which side evaluates first cannot
affect the outcome. -/
theorem intention_yield_symmetric (idA idB : Nat) (hne : idA ≠ idB) (pid : Nat)
    (xA yA xB yB : Int) (ua ub : Int) :
    (shouldYieldIntention idA (some idB) (some ⟨pid, xA, yA, ua⟩) (some ⟨pid, xB, yB, ub⟩) = true ↔
      (ua < ub ∨ (ua = ub ∧ idB < idA))) ∧
    ((shouldYieldIntention idA (some idB) (some ⟨pid, xA, yA, ua⟩) (some ⟨pid, xB, yB, ub⟩) = true ∧
      shouldYieldIntention idB (some idA) (some ⟨pid, xB, yB, ub⟩) (some ⟨pid, xA, yA, ua⟩) = false) ∨
     (shouldYieldIntention idA (some idB) (some ⟨pid, xA, yA, ua⟩) (some ⟨pid, xB, yB, ub⟩) = false ∧
      shouldYieldIntention idB (some idA) (some ⟨pid, xB, yB, ub⟩) (some ⟨pid, xA, yA, ua⟩) = true)) := by
  have key : ∀ (i j : Nat) (x1 y1 x2 y2 : Int) (u v : Int),
      shouldYieldIntention i (some j) (some ⟨pid, x1, y1, u⟩) (some ⟨pid, x2, y2, v⟩) =
        (decide (u < v) || (decide (u = v) && decide (j < i))) := by
    intro i j x1 y1 x2 y2 u v
    simp only [shouldYieldIntention, hasIntentionConflict]
    rcases lt_trichotomy u v with h | h | h
    · simp [h, ne_of_lt h, lt_asymm h]
    · subst h
      by_cases hj : j < i <;> simp [hj]
    · simp [lt_asymm h, ne_of_lt h, ne_of_gt h]
  rw [key, key]
  constructor
  · constructor
    · intro h
      simp only [Bool.or_eq_true, Bool.and_eq_true, decide_eq_true_eq] at h
      tauto
    · intro h
      simp only [Bool.or_eq_true, Bool.and_eq_true, decide_eq_true_eq]
      tauto
  · rcases lt_trichotomy ua ub with h | h | h
    · left
      simp [h, lt_asymm h, ne_of_gt h, ne_of_lt h]
    · subst h
      rcases Nat.lt_trichotomy idA idB with hi | hi | hi
      · right
        simp [hi, Nat.lt_asymm hi]
      · exact absurd hi hne
      · left
        simp [hi, Nat.lt_asymm hi]
    · right
      simp [h, lt_asymm h, ne_of_gt h, ne_of_lt h]

/-- Witness for C5, the spec's scenario C: equal utilities, ids 3 and 7 —
agent 7 yields, agent 3 does not. -/
theorem intention_yield_symmetric_witness :
    ((7 : Nat) ≠ 3) ∧
    ((shouldYieldIntention 7 (some 3) (some ⟨0, 1, 1, 5⟩) (some ⟨0, 1, 1, 5⟩) = true ∧
      shouldYieldIntention 3 (some 7) (some ⟨0, 1, 1, 5⟩) (some ⟨0, 1, 1, 5⟩) = false) ∨
     (shouldYieldIntention 7 (some 3) (some ⟨0, 1, 1, 5⟩) (some ⟨0, 1, 1, 5⟩) = false ∧
      shouldYieldIntention 3 (some 7) (some ⟨0, 1, 1, 5⟩) (some ⟨0, 1, 1, 5⟩) = true)) :=
  ⟨by decide, (intention_yield_symmetric 7 3 (by decide) 0 1 1 1 1 5 5).2⟩


/-! ### Intention scheduler (claim C7) -/

theorem pickCandidateFallback_cases (s : PickSnapshot)
    (hWF : ∀ cur, s.currentIntention = some cur → cur.goal = "pickup" → cur.priority = 2) :
    ((pickCandidateFallback s).goal = "deliver" ∧ (pickCandidateFallback s).priority = 3) ∨
    ((pickCandidateFallback s).goal = "pickup" ∧ (pickCandidateFallback s).priority = 2) ∨
    ((pickCandidateFallback s).goal = "explore" ∧ (pickCandidateFallback s).priority = 1) := by
  unfold pickCandidateFallback
  by_cases h1 : s.hasParcel
  · simp [h1]
  · simp only [h1, Bool.false_eq_true, if_false]
    cases hcur : s.currentIntention with
    | none =>
      by_cases h2 : s.pickupTargetAfterUpdate <;> simp [h2]
    | some cur =>
      by_cases h2 : cur.goal == "pickup" && !cur.stopped && !cur.completed && !s.shouldYield
      · simp only [Bool.and_eq_true, beq_iff_eq, Bool.not_eq_true] at h2
        obtain ⟨⟨⟨hgoal, hstop⟩, hcomp⟩, hyield⟩ := h2
        have hpri : cur.priority = 2 := hWF cur hcur hgoal
        simp [hgoal, hstop, hcomp, hyield, hpri]
      · simp only [h2, Bool.false_eq_true, if_false]
        by_cases h3 : s.pickupTargetAfterUpdate <;> simp [h3]

/-- **C7.** `canBePreemptedBy(other)` is true iff `other` is present with
strictly greater priority (equal or lower priority never preempts), and
every intention `pickCandidateIntention` returns carries one of the fixed
goal/priority pairs handover/10, pddl/4, deliver/3, pickup/2, explore/1 —
strictly ordered as 10 > 4 > 3 > 2 > 1.  (The well-formedness hypothesis
records that a current pickup intention was itself created with priority 2
by an earlier call.) -/
theorem intention_priority_contract :
    (∀ (self other : IntentionRec),
      canBePreemptedBy self (some other) = true ↔ self.priority < other.priority) ∧
    (∀ self : IntentionRec, canBePreemptedBy self none = false) ∧
    (∀ (self other : IntentionRec),
      other.priority ≤ self.priority → canBePreemptedBy self (some other) = false) ∧
    ((10 : Nat) > 4 ∧ (4 : Nat) > 3 ∧ (3 : Nat) > 2 ∧ (2 : Nat) > 1) ∧
    (∀ s : PickSnapshot,
      (∀ cur, s.currentIntention = some cur → cur.goal = "pickup" → cur.priority = 2) →
      ((pickCandidateIntention s).goal = "handover" ∧ (pickCandidateIntention s).priority = 10) ∨
      ((pickCandidateIntention s).goal = "pddl" ∧ (pickCandidateIntention s).priority = 4) ∨
      ((pickCandidateIntention s).goal = "deliver" ∧ (pickCandidateIntention s).priority = 3) ∨
      ((pickCandidateIntention s).goal = "pickup" ∧ (pickCandidateIntention s).priority = 2) ∨
      ((pickCandidateIntention s).goal = "explore" ∧ (pickCandidateIntention s).priority = 1)) := by
  refine ⟨?_, ?_, ?_, by omega, ?_⟩
  · intro self other
    simp [canBePreemptedBy]
  · intro self
    simp [canBePreemptedBy]
  · intro self other h
    have hn : ¬(self.priority < other.priority) := by omega
    simp [canBePreemptedBy, hn]
  · intro s hWF
    unfold pickCandidateIntention
    by_cases h1 : s.hasHandoverPlan
    · simp [h1]
    · simp only [h1, Bool.false_eq_true, if_false]
      by_cases h2 : s.usePDDL && s.hasPddlPlan
      · simp only [h2, if_true]
        by_cases h3 : s.pddlShouldAbort
        · simpa [h3] using Or.inr (Or.inr (pickCandidateFallback_cases s hWF))
        · simp only [h3, Bool.false_eq_true, if_false]
          by_cases h4 : s.pddlIsExecuting
          · simp [h4]
          · simp only [h4, Bool.false_eq_true, if_false]
            by_cases h5 : !s.hasParcel && s.pddlCandidate
            · simp [h5]
            · simpa [h5] using Or.inr (Or.inr (pickCandidateFallback_cases s hWF))
      · simpa [h2] using Or.inr (Or.inr (pickCandidateFallback_cases s hWF))

/-- Witness for C7: a snapshot with no plans and no target explores at
priority 1. -/
theorem intention_priority_contract_witness :
    (∀ cur, (none : Option IntentionRec) = some cur → cur.goal = "pickup" → cur.priority = 2) ∧
    (((pickCandidateIntention
        ⟨false, false, false, false, false, false, false, none, false, false⟩).goal = "handover" ∧
      (pickCandidateIntention
        ⟨false, false, false, false, false, false, false, none, false, false⟩).priority = 10) ∨
     ((pickCandidateIntention
        ⟨false, false, false, false, false, false, false, none, false, false⟩).goal = "pddl" ∧
      (pickCandidateIntention
        ⟨false, false, false, false, false, false, false, none, false, false⟩).priority = 4) ∨
     ((pickCandidateIntention
        ⟨false, false, false, false, false, false, false, none, false, false⟩).goal = "deliver" ∧
      (pickCandidateIntention
        ⟨false, false, false, false, false, false, false, none, false, false⟩).priority = 3) ∨
     ((pickCandidateIntention
        ⟨false, false, false, false, false, false, false, none, false, false⟩).goal = "pickup" ∧
      (pickCandidateIntention
        ⟨false, false, false, false, false, false, false, none, false, false⟩).priority = 2) ∨
     ((pickCandidateIntention
        ⟨false, false, false, false, false, false, false, none, false, false⟩).goal = "explore" ∧
      (pickCandidateIntention
        ⟨false, false, false, false, false, false, false, none, false, false⟩).priority = 1)) := by
  constructor
  · intro cur h
    simp at h
  · exact intention_priority_contract.2.2.2.2
      ⟨false, false, false, false, false, false, false, none, false, false⟩
      (fun cur h => by simp at h)

/-! ### Message handling frame (claim C8) and mode monotonicity (claim C9) -/

/-- Counterexample to C8 as stated: with confirmed partner 1, an
`AGENT_INFO` message from the third-party sender 2 changes the beliefs
(the agent list gains the reported agent) — the source dispatches
`AGENT_INFO` without any sender check. -/
theorem agent_info_not_filtered_counterexample :
    handleMessage (corridorGrid 2)
      ⟨CoordinationMode.NORMAL, none, emptyCollisionState, none, none,
        HandoverRole.UNDECIDED, none, none, none, none,
        some 1, some (0, 0), true, [], 0, 0, 0, 100⟩
      2 (Msg.AGENT_INFO [⟨5, 3, 4⟩]) 0 ≠
    ⟨CoordinationMode.NORMAL, none, emptyCollisionState, none, none,
      HandoverRole.UNDECIDED, none, none, none, none,
      some 1, some (0, 0), true, [], 0, 0, 0, 100⟩ := by
  decide

/-- **C8 (amended).** With a confirmed partner `P`, an incoming
`INTENTION`, `COLLISION` or `HANDOVER_ROLE` message from any sender other
than `P` leaves the whole coordination state and beliefs unchanged.
(`AGENT_INFO`, by contrast, is processed whatever the sender — see the
counterexample above.) -/
theorem non_partner_messages_ignored (g : Grid) (s : CoordState)
    (senderId P : Nat) (now : Nat)
    (hpart : s.partnerId = some P) (_hconf : s.partnerConfirmed = true)
    (hne : senderId ≠ P) :
    (∀ i, handleMessage g s senderId (Msg.INTENTION i) now = s) ∧
    (∀ c, handleMessage g s senderId (Msg.COLLISION c) now = s) ∧
    (∀ role ht, handleMessage g s senderId (Msg.HANDOVER_ROLE role ht) now = s) := by
  have hneq : ¬(s.partnerId = some senderId) := by
    rw [hpart]
    intro h
    exact hne (Option.some_injective _ h).symm
  refine ⟨?_, ?_, ?_⟩
  · intro i
    simp [handleMessage, handleIntention, hneq]
  · intro c
    simp [handleMessage, handleCollision, hneq]
  · intro role ht
    simp [handleMessage, handleHandoverRole, hneq]

/-- Witness for C8 (amended): partner 1 confirmed, sender 2. -/
theorem non_partner_messages_ignored_witness :
    ((⟨CoordinationMode.NORMAL, none, emptyCollisionState, none, none,
        HandoverRole.UNDECIDED, none, none, none, none,
        some 1, some (0, 0), true, [], 0, 0, 0, 100⟩ : CoordState).partnerId = some 1) ∧
    ((2 : Nat) ≠ 1) ∧
    (∀ i, handleMessage (corridorGrid 2)
        ⟨CoordinationMode.NORMAL, none, emptyCollisionState, none, none,
          HandoverRole.UNDECIDED, none, none, none, none,
          some 1, some (0, 0), true, [], 0, 0, 0, 100⟩ 2 (Msg.INTENTION i) 0 =
      ⟨CoordinationMode.NORMAL, none, emptyCollisionState, none, none,
        HandoverRole.UNDECIDED, none, none, none, none,
        some 1, some (0, 0), true, [], 0, 0, 0, 100⟩) := by
  refine ⟨rfl, by decide, ?_⟩
  exact (non_partner_messages_ignored (corridorGrid 2) _ 2 1 0 rfl rfl (by decide)).1

theorem mode_handleMessage (g : Grid) (s : CoordState) (sid : Nat) (m : Msg) (now : Nat) :
    (handleMessage g s sid m now).mode = s.mode := by
  cases m with
  | HANDSHAKE a b c =>
    simp only [handleMessage, handleHandshake, CoordState.setPartner]
    split <;> rfl
  | HANDSHAKE_ACK sender =>
    simp only [handleMessage, handleHandshakeAck, CoordState.setPartner]
    cases sender <;> (repeat' split) <;> rfl
  | AGENT_INFO l =>
    simp [handleMessage, handleAgentInfo]
  | INTENTION i =>
    simp only [handleMessage, handleIntention]
    split <;> rfl
  | COLLISION c =>
    simp only [handleMessage, handleCollision, handleMoveRequest]
    (repeat' split) <;> rfl
  | HANDOVER_ROLE role ht =>
    simp only [handleMessage, handleHandoverRole]
    split <;> rfl

theorem mode_after_step (g : Grid) (spawns deliveries : List Cell) (s : CoordState)
    (op : CoordOp) (hop : op ≠ CoordOp.reset) :
    (stepCoord g spawns deliveries s op).mode = s.mode ∨
    (s.mode = CoordinationMode.NORMAL ∧
      (stepCoord g spawns deliveries s op).mode = CoordinationMode.HANDOVER) := by
  cases op with
  | message sid m now => exact Or.inl (mode_handleMessage g s sid m now)
  | detectMode =>
    by_cases h1 : s.mode = CoordinationMode.NORMAL
    · simp only [stepCoord, detectCoordinationMode]
      rw [if_neg (by simp [h1])]
      by_cases h2 : s.partnerId.isNone || !s.partnerConfirmed
      · rw [if_pos h2]
        exact Or.inl rfl
      · rw [if_neg h2]
        cases hres : shouldUseHandover g spawns deliveries with
        | none => exact Or.inl rfl
        | some r =>
          cases r with
          | none => exact Or.inl rfl
          | some cfg => exact Or.inr ⟨h1, rfl⟩
    · exact Or.inl (by simp [stepCoord, detectCoordinationMode, h1])
  | announce i =>
    simp only [stepCoord, announceIntention]
    split <;> simp
  | clearIntentionOp => exact Or.inl rfl
  | initiateCollision now =>
    simp only [stepCoord, initiateCollisionResolution]
    split <;> simp
  | endCollisionOp =>
    simp only [stepCoord, endCollision]
    split <;> simp
  | collisionCheck now =>
    simp only [stepCoord, collisionAutoReset]
    split <;> simp
  | reset => exact absurd rfl hop

/-- **C9.** Within one session (no `reset()` in the operation sequence)
the coordination mode only ever moves NORMAL → HANDOVER: a handover-mode
state stays in handover mode under every reset-free operation sequence,
a single step changes the mode at most from NORMAL to HANDOVER, and
`detectCoordinationMode` leaves the state entirely unchanged once the mode
is no longer NORMAL (mode selection runs at most once). -/
theorem coordination_mode_monotone (g : Grid) (spawns deliveries : List Cell)
    (ops : List CoordOp) (hops : CoordOp.reset ∉ ops) (s : CoordState) :
    (s.mode = CoordinationMode.HANDOVER →
      (ops.foldl (stepCoord g spawns deliveries) s).mode = CoordinationMode.HANDOVER) ∧
    (∀ op ∈ ops,
      ∀ s' : CoordState,
        (stepCoord g spawns deliveries s' op).mode = s'.mode ∨
        (s'.mode = CoordinationMode.NORMAL ∧
          (stepCoord g spawns deliveries s' op).mode = CoordinationMode.HANDOVER)) ∧
    (∀ s' : CoordState, s'.mode ≠ CoordinationMode.NORMAL →
      stepCoord g spawns deliveries s' CoordOp.detectMode = s') := by
  refine ⟨?_, ?_, ?_⟩
  · induction ops generalizing s with
    | nil => intro h; simpa using h
    | cons op rest ih =>
      intro h
      simp only [List.mem_cons, not_or] at hops
      have hstep := mode_after_step g spawns deliveries s op (by
        intro hh; exact hops.1 (by rw [hh]))
      have hmode : (stepCoord g spawns deliveries s op).mode = CoordinationMode.HANDOVER := by
        rcases hstep with h1 | ⟨h1, h2⟩
        · rw [h1, h]
        · rw [h] at h1; cases h1
      simpa using ih hops.2 _ hmode
  · intro op hop s'
    refine mode_after_step g spawns deliveries s' op ?_
    intro hh
    rw [hh] at hop
    exact hops hop
  · intro s' h
    simp [stepCoord, detectCoordinationMode, h]

/-- Witness for C9: from a handover-mode state, a reset-free sequence of a
message and a mode re-detection keeps HANDOVER mode. -/
theorem coordination_mode_monotone_witness :
    (CoordOp.reset ∉ [CoordOp.detectMode, CoordOp.clearIntentionOp]) ∧
    ((⟨CoordinationMode.HANDOVER, none, emptyCollisionState, none, none,
        HandoverRole.COLLECTOR, none, none, none, none,
        some 1, some (0, 0), true, [], 0, 0, 0, 100⟩ : CoordState).mode =
          CoordinationMode.HANDOVER →
      (([CoordOp.detectMode, CoordOp.clearIntentionOp].foldl
          (stepCoord (corridorGrid 2) [] [])
          ⟨CoordinationMode.HANDOVER, none, emptyCollisionState, none, none,
            HandoverRole.COLLECTOR, none, none, none, none,
            some 1, some (0, 0), true, [], 0, 0, 0, 100⟩).mode =
        CoordinationMode.HANDOVER)) :=
  ⟨by decide,
    (coordination_mode_monotone (corridorGrid 2) [] []
      [CoordOp.detectMode, CoordOp.clearIntentionOp] (by decide) _).1⟩

/-! ### Manhattan distance and walk lemmas -/

theorem manhattanDistance_triangle (x1 y1 x2 y2 x3 y3 : Int) :
    manhattanDistance x1 y1 x3 y3 ≤
      manhattanDistance x1 y1 x2 y2 + manhattanDistance x2 y2 x3 y3 := by
  unfold manhattanDistance
  have hx : (x1 - x3).natAbs ≤ (x1 - x2).natAbs + (x2 - x3).natAbs := by
    have : x1 - x3 = (x1 - x2) + (x2 - x3) := by ring
    rw [this]
    exact Int.natAbs_add_le _ _
  have hy : (y1 - y3).natAbs ≤ (y1 - y2).natAbs + (y2 - y3).natAbs := by
    have : y1 - y3 = (y1 - y2) + (y2 - y3) := by ring
    rw [this]
    exact Int.natAbs_add_le _ _
  omega

theorem manhattan_triangle (a b c : Cell) :
    manhattan a c ≤ manhattan a b + manhattan b c :=
  manhattanDistance_triangle a.x a.y b.x b.y c.x c.y

theorem mem_neighborCandidates_manhattan (c w : Cell) (h : w ∈ neighborCandidates c) :
    manhattan c w = 1 := by
  simp only [neighborCandidates, List.mem_append, List.mem_singleton] at h
  rcases h with ((h | h) | h) | h
  · subst h
    simp [manhattan, manhattanDistance]
  · by_cases hy : c.y = 0
    · simp [hy] at h
    · simp only [hy, if_false, List.mem_singleton] at h
      subst h
      simp only [manhattan, manhattanDistance]
      have : ((c.y : Int) - (c.y - 1 : Nat)) = 1 := by
        have h1 : (1 : Nat) ≤ c.y := Nat.one_le_iff_ne_zero.mpr hy
        push_cast [Nat.cast_sub h1]
        ring
      simp [this]
  · subst h
    simp [manhattan, manhattanDistance]
  · by_cases hx : c.x = 0
    · simp [hx] at h
    · simp only [hx, if_false, List.mem_singleton] at h
      subst h
      simp only [manhattan, manhattanDistance]
      have : ((c.x : Int) - (c.x - 1 : Nat)) = 1 := by
        have h1 : (1 : Nat) ≤ c.x := Nat.one_le_iff_ne_zero.mpr hx
        push_cast [Nat.cast_sub h1]
        ring
      simp [this]

theorem mem_neighbors_manhattan (g : Grid) (c w : Cell) (h : w ∈ g.neighbors c) :
    manhattan c w = 1 :=
  mem_neighborCandidates_manhattan c w (List.mem_of_mem_filter h)

theorem mem_neighbors_reachable (g : Grid) (c w : Cell) (h : w ∈ g.neighbors c) :
    g.isReachable w = true :=
  List.of_mem_filter h

theorem mem_neighbors_valid (g : Grid) (c w : Cell) (h : w ∈ g.neighbors c) :
    g.isValid w = true := by
  have := mem_neighbors_reachable g c w h
  unfold Grid.isReachable at this
  exact (Bool.and_eq_true _ _ |>.mp this).1

theorem mem_neighbors_ne (g : Grid) (c w : Cell) (h : w ∈ g.neighbors c) : w ≠ c := by
  intro he
  have := mem_neighbors_manhattan g c w h
  subst he
  simp [manhattan, manhattanDistance] at this

theorem endOf_cons (s c : Cell) (p : List Cell) : endOf s (c :: p) = endOf c p := by
  cases p with
  | nil => rfl
  | cons d q =>
    have h : (d :: q).getLast?.isSome := by simp
    obtain ⟨x, hx⟩ := Option.isSome_iff_exists.mp h
    simp [endOf, hx]

theorem endOf_append_one (s w : Cell) (p : List Cell) : endOf s (p ++ [w]) = w := by
  simp [endOf, List.getLast?_append]

theorem isWalk_append_one (g : Grid) (blocked : Cell → Bool) (s : Cell) (p : List Cell)
    (w : Cell) (hw : isWalk g blocked s p) (hnb : w ∈ g.neighbors (endOf s p))
    (hbl : blocked w = false) : isWalk g blocked s (p ++ [w]) := by
  induction p generalizing s with
  | nil =>
    exact ⟨by simpa [endOf] using hnb, hbl, trivial⟩
  | cons c q ih =>
    obtain ⟨h1, h2, h3⟩ := hw
    exact ⟨h1, h2, ih c h3 (by simpa [endOf_cons] using hnb)⟩

theorem isWalk_telescope (g : Grid) (blocked : Cell → Bool) (t : Cell) :
    ∀ (p : List Cell) (s : Cell), isWalk g blocked s p →
      manhattan s t ≤ p.length + manhattan (endOf s p) t := by
  intro p
  induction p with
  | nil => intro s _; simp [endOf]
  | cons c q ih =>
    intro s hw
    obtain ⟨h1, _, h3⟩ := hw
    have hc : manhattan s t ≤ manhattan s c + manhattan c t := manhattan_triangle s c t
    have h1m : manhattan s c = 1 := mem_neighbors_manhattan g s c h1
    have := ih c h3
    rw [endOf_cons]
    calc manhattan s t ≤ 1 + manhattan c t := by rw [← h1m]; exact hc
    _ ≤ 1 + (q.length + manhattan (endOf c q) t) := by omega
    _ = (c :: q).length + manhattan (endOf c q) t := by simp; omega

theorem walk_length_ge (g : Grid) (blocked : Cell → Bool) :
    ∀ (p : List Cell) (s : Cell), isWalk g blocked s p →
      manhattan s (endOf s p) ≤ p.length := by
  intro p s hw
  have := isWalk_telescope g blocked (endOf s p) p s hw
  simpa [manhattan, manhattanDistance] using this

theorem walk_shortcut (g : Grid) (blocked : Cell → Bool) (s : Cell) :
    ∀ (p : List Cell) (a t : Cell), isWalk g blocked a p → endOf a p = t → s ∈ p →
      ∃ q, isWalk g blocked s q ∧ endOf s q = t ∧ q.length < p.length := by
  intro p
  induction p with
  | nil => intro a t _ _ h; cases h
  | cons c rest ih =>
    intro a t hw hend hmem
    obtain ⟨h1, h2, h3⟩ := hw
    rcases List.mem_cons.mp hmem with hc | hc
    · subst hc
      exact ⟨rest, h3, by rw [← endOf_cons a s rest]; exact hend, by simp⟩
    · obtain ⟨q, hq1, hq2, hq3⟩ := ih c t h3 (by simpa [endOf_cons] using hend) hc
      exact ⟨q, hq1, hq2, by simp; omega⟩

/-! ### Frontier selection and removal lemmas -/

theorem selectMin_mem (first : ANode) (rest : List ANode) :
    selectMin first rest ∈ first :: rest := by
  unfold selectMin
  induction rest generalizing first with
  | nil => simp
  | cons n rest ih =>
    simp only [List.foldl_cons]
    have h := ih (if betterNode n first then n else first)
    by_cases hb : betterNode n first
    · rw [if_pos hb] at h ⊢
      exact List.mem_cons_of_mem first h
    · rw [if_neg hb] at h ⊢
      rcases List.mem_cons.mp h with h1 | h1
      · rw [h1]
        exact List.mem_cons_self _ _
      · exact List.mem_cons_of_mem _ (List.mem_cons_of_mem _ h1)

theorem foldl_better_le_init (b : ANode) (l : List ANode) :
    (l.foldl (fun best n => if betterNode n best then n else best) b).f ≤ b.f := by
  induction l generalizing b with
  | nil => simp
  | cons n rest ih =>
    simp only [List.foldl_cons]
    by_cases hb : betterNode n b
    · rw [if_pos hb]
      refine le_trans (ih n) ?_
      unfold betterNode at hb
      simp only [Bool.or_eq_true, Bool.and_eq_true, decide_eq_true_eq] at hb
      rcases hb with h | ⟨h, _⟩ <;> omega
    · rw [if_neg hb]
      exact ih b

theorem keys_eraseP_pos (l : List ANode) (c : Cell) (hnod : (l.map ANode.pos).Nodup) :
    ∀ m ∈ l.eraseP (fun n => decide (n.pos = c)), m ∈ l ∧ (m.pos = c → ∀ n ∈ l, n.pos ≠ c) := by
  intro m hm
  refine ⟨List.mem_of_mem_eraseP hm, ?_⟩
  intro hc
  intro n hn hnc
  induction l with
  | nil => cases hn
  | cons a rest ih =>
    simp only [List.map_cons, List.nodup_cons] at hnod
    by_cases ha : a.pos = c
    · rw [List.eraseP_cons_of_pos (by simp [ha])] at hm
      exact hnod.1 (List.mem_map.mpr ⟨m, hm, by rw [hc, ha]⟩)
    · rw [List.eraseP_cons_of_neg (by simp [ha])] at hm
      rcases List.mem_cons.mp hm with h1 | h1
      · exact ha (h1 ▸ hc)
      · rcases List.mem_cons.mp hn with h2 | h2
        · exact ha (h2 ▸ hnc)
        · exact ih hnod.2 h1 h2

theorem better_step_le (b m : ANode) :
    (if betterNode m b then m else b).f ≤ b.f ∧ (if betterNode m b then m else b).f ≤ m.f := by
  by_cases hb : betterNode m b
  · rw [if_pos hb]
    unfold betterNode at hb
    simp only [Bool.or_eq_true, Bool.and_eq_true, decide_eq_true_eq] at hb
    rcases hb with h | ⟨h, _⟩ <;> omega
  · rw [if_neg hb]
    unfold betterNode at hb
    simp only [Bool.or_eq_true, Bool.and_eq_true, decide_eq_true_eq, not_or, not_and,
      not_lt] at hb
    exact ⟨Nat.le_refl _, hb.1⟩

theorem foldl_better_le_mem (b : ANode) (l : List ANode) :
    ∀ n ∈ l, (l.foldl (fun best n => if betterNode n best then n else best) b).f ≤ n.f := by
  induction l generalizing b with
  | nil => intro n hn; cases hn
  | cons m rest ih =>
    intro n hn
    simp only [List.foldl_cons]
    rcases List.mem_cons.mp hn with h | h
    · subst h
      exact le_trans (foldl_better_le_init _ rest) (better_step_le b n).2
    · exact ih (if betterNode m b then m else b) n h

theorem selectMin_le_f (first : ANode) (rest : List ANode) :
    ∀ n ∈ first :: rest, (selectMin first rest).f ≤ n.f := by
  intro n hn
  rcases List.mem_cons.mp hn with h | h
  · subst h
    exact foldl_better_le_init n rest
  · exact foldl_better_le_mem first rest n h

/-! ### Relaxation lemmas -/

theorem relax_mem (blocked : Cell → Bool) (t : Cell) (cur : ANode)
    (explored F : List ANode) (w : Cell) (v : ANode)
    (hv : v ∈ relaxNeighbor blocked t cur explored F w) :
    v ∈ F ∨ (v = ⟨w, cur.g + 1, manhattan w t, cur.path ++ [w]⟩ ∧ blocked w = false ∧
      explored.any (fun n => decide (n.pos = w)) = false) := by
  unfold relaxNeighbor at hv
  by_cases h1 : blocked w
  · rw [if_pos h1] at hv
    exact Or.inl hv
  · rw [if_neg h1] at hv
    by_cases h2 : explored.any (fun n => decide (n.pos = w))
    · rw [if_pos h2] at hv
      exact Or.inl hv
    · rw [if_neg h2] at hv
      by_cases h3 : F.any (fun n => decide (n.pos = w))
      · rw [if_pos h3] at hv
        rcases List.mem_map.mp hv with ⟨v0, hv0, himg⟩
        by_cases h4 : decide (v0.pos = w) && decide (cur.g + 1 < v0.g)
        · rw [if_pos h4] at himg
          exact Or.inr ⟨himg.symm, by simpa using h1, by simpa using h2⟩
        · rw [if_neg h4] at himg
          exact Or.inl (himg ▸ hv0)
      · rw [if_neg h3] at hv
        rcases List.mem_append.mp hv with h | h
        · exact Or.inl h
        · exact Or.inr ⟨List.mem_singleton.mp h, by simpa using h1, by simpa using h2⟩

theorem relax_keys (blocked : Cell → Bool) (t : Cell) (cur : ANode)
    (explored F : List ANode) (w : Cell) :
    ((relaxNeighbor blocked t cur explored F w).map ANode.pos = F.map ANode.pos) ∨
    ((relaxNeighbor blocked t cur explored F w).map ANode.pos = F.map ANode.pos ++ [w] ∧
      (F.any (fun n => decide (n.pos = w)) = false) ∧
      (explored.any (fun n => decide (n.pos = w)) = false) ∧ blocked w = false) := by
  unfold relaxNeighbor
  by_cases h1 : blocked w
  · rw [if_pos h1]
    exact Or.inl rfl
  · rw [if_neg h1]
    by_cases h2 : explored.any (fun n => decide (n.pos = w))
    · rw [if_pos h2]
      exact Or.inl rfl
    · rw [if_neg h2]
      by_cases h3 : F.any (fun n => decide (n.pos = w))
      · rw [if_pos h3]
        left
        rw [List.map_map]
        apply List.map_congr_left
        intro v0 hv0
        by_cases h4 : decide (v0.pos = w) && decide (cur.g + 1 < v0.g)
        · simp only [Function.comp_apply, if_pos h4]
          simp only [Bool.and_eq_true, decide_eq_true_eq] at h4
          exact h4.1.symm
        · simp only [Function.comp_apply, if_neg h4]
      · rw [if_neg h3]
        right
        refine ⟨by simp, by simpa using h3, by simpa using h2, by simpa using h1⟩

theorem relax_preserve_bound (blocked : Cell → Bool) (t : Cell) (cur : ANode)
    (explored F : List ANode) (w : Cell) (p : Cell) (k : Nat)
    (h : ∃ v ∈ F, v.pos = p ∧ v.g ≤ k) :
    ∃ v ∈ relaxNeighbor blocked t cur explored F w, v.pos = p ∧ v.g ≤ k := by
  obtain ⟨v0, hv0, hp, hg⟩ := h
  unfold relaxNeighbor
  by_cases h1 : blocked w
  · rw [if_pos h1]
    exact ⟨v0, hv0, hp, hg⟩
  · rw [if_neg h1]
    by_cases h2 : explored.any (fun n => decide (n.pos = w))
    · rw [if_pos h2]
      exact ⟨v0, hv0, hp, hg⟩
    · rw [if_neg h2]
      by_cases h3 : F.any (fun n => decide (n.pos = w))
      · rw [if_pos h3]
        by_cases h4 : decide (v0.pos = w) && decide (cur.g + 1 < v0.g)
        · refine ⟨⟨w, cur.g + 1, manhattan w t, cur.path ++ [w]⟩,
            List.mem_map.mpr ⟨v0, hv0, by rw [if_pos h4]⟩, ?_, ?_⟩
          · simp only [Bool.and_eq_true, decide_eq_true_eq] at h4
            rw [← h4.1, hp]
          · simp only [Bool.and_eq_true, decide_eq_true_eq] at h4
            show cur.g + 1 ≤ k
            omega
        · exact ⟨v0, List.mem_map.mpr ⟨v0, hv0, by rw [if_neg h4]⟩, hp, hg⟩
      · rw [if_neg h3]
        exact ⟨v0, List.mem_append_left _ hv0, hp, hg⟩

theorem relax_new_bound (blocked : Cell → Bool) (t : Cell) (cur : ANode)
    (explored F : List ANode) (w : Cell)
    (hbl : blocked w = false) (hex : explored.any (fun n => decide (n.pos = w)) = false) :
    ∃ v ∈ relaxNeighbor blocked t cur explored F w, v.pos = w ∧ v.g ≤ cur.g + 1 := by
  unfold relaxNeighbor
  rw [if_neg (by simp [hbl]), if_neg (by simp [hex])]
  by_cases h3 : F.any (fun n => decide (n.pos = w))
  · rw [if_pos h3]
    obtain ⟨v0, hv0, hp⟩ := List.any_eq_true.mp h3
    simp only [decide_eq_true_eq] at hp
    by_cases h4 : decide (v0.pos = w) && decide (cur.g + 1 < v0.g)
    · exact ⟨⟨w, cur.g + 1, manhattan w t, cur.path ++ [w]⟩,
        List.mem_map.mpr ⟨v0, hv0, by rw [if_pos h4]⟩, rfl, Nat.le_refl _⟩
    · refine ⟨v0, List.mem_map.mpr ⟨v0, hv0, by rw [if_neg h4]⟩, hp, ?_⟩
      have h5 : ¬(cur.g + 1 < v0.g) := by
        intro hlt
        exact h4 (by simp [hp, hlt])
      omega
  · rw [if_neg h3]
    exact ⟨⟨w, cur.g + 1, manhattan w t, cur.path ++ [w]⟩,
      List.mem_append_right _ (List.mem_singleton.mpr rfl), rfl, Nat.le_refl _⟩

theorem fold_relax_mem (blocked : Cell → Bool) (t : Cell) (cur : ANode)
    (explored : List ANode) :
    ∀ (ws : List Cell) (F : List ANode) (v : ANode),
      v ∈ ws.foldl (relaxNeighbor blocked t cur explored) F →
      v ∈ F ∨ (∃ w ∈ ws, v = ⟨w, cur.g + 1, manhattan w t, cur.path ++ [w]⟩ ∧
        blocked w = false ∧ explored.any (fun n => decide (n.pos = w)) = false) := by
  intro ws
  induction ws with
  | nil => intro F v hv; exact Or.inl hv
  | cons w ws ih =>
    intro F v hv
    simp only [List.foldl_cons] at hv
    rcases ih (relaxNeighbor blocked t cur explored F w) v hv with h | ⟨w2, hw2, he⟩
    · rcases relax_mem blocked t cur explored F w v h with h2 | h2
      · exact Or.inl h2
      · exact Or.inr ⟨w, List.mem_cons_self _ _, h2⟩
    · exact Or.inr ⟨w2, List.mem_cons_of_mem _ hw2, he⟩

theorem fold_relax_preserve_bound (blocked : Cell → Bool) (t : Cell) (cur : ANode)
    (explored : List ANode) :
    ∀ (ws : List Cell) (F : List ANode) (p : Cell) (k : Nat),
      (∃ v ∈ F, v.pos = p ∧ v.g ≤ k) →
      ∃ v ∈ ws.foldl (relaxNeighbor blocked t cur explored) F, v.pos = p ∧ v.g ≤ k := by
  intro ws
  induction ws with
  | nil => intro F p k h; exact h
  | cons w ws ih =>
    intro F p k h
    simp only [List.foldl_cons]
    exact ih _ p k (relax_preserve_bound blocked t cur explored F w p k h)

theorem fold_relax_new_bound (blocked : Cell → Bool) (t : Cell) (cur : ANode)
    (explored : List ANode) :
    ∀ (ws : List Cell) (F : List ANode) (w : Cell), w ∈ ws →
      blocked w = false → explored.any (fun n => decide (n.pos = w)) = false →
      ∃ v ∈ ws.foldl (relaxNeighbor blocked t cur explored) F, v.pos = w ∧ v.g ≤ cur.g + 1 := by
  intro ws
  induction ws with
  | nil => intro F w hw; cases hw
  | cons w0 ws ih =>
    intro F w hw hbl hex
    simp only [List.foldl_cons]
    rcases List.mem_cons.mp hw with h | h
    · subst h
      exact fold_relax_preserve_bound blocked t cur explored ws _ w (cur.g + 1)
        (relax_new_bound blocked t cur explored F w hbl hex)
    · exact ih _ w h hbl hex

theorem fold_relax_nodup (blocked : Cell → Bool) (t : Cell) (cur : ANode)
    (explored : List ANode) :
    ∀ (ws : List Cell) (F : List ANode),
      ((F.map ANode.pos).Nodup) →
      (((ws.foldl (relaxNeighbor blocked t cur explored) F).map ANode.pos).Nodup) := by
  intro ws
  induction ws with
  | nil => intro F h; exact h
  | cons w ws ih =>
    intro F h
    simp only [List.foldl_cons]
    apply ih
    rcases relax_keys blocked t cur explored F w with hk | ⟨hk, hany, _, _⟩
    · rw [hk]; exact h
    · rw [hk]
      refine List.Nodup.append h (List.nodup_singleton w) ?_
      intro p hp hp2
      rw [List.mem_singleton] at hp2
      subst hp2
      rcases List.mem_map.mp hp with ⟨v0, hv0, hv0p⟩
      have : F.any (fun n => decide (n.pos = p)) = true :=
        List.any_eq_true.mpr ⟨v0, hv0, by simp [hv0p]⟩
      rw [hany] at this
      cases this

theorem fold_relax_disjoint (blocked : Cell → Bool) (t : Cell) (cur : ANode)
    (explored : List ANode) (ws : List Cell) (F : List ANode)
    (h : ∀ v ∈ F, ∀ m ∈ explored, v.pos ≠ m.pos) :
    ∀ v ∈ ws.foldl (relaxNeighbor blocked t cur explored) F,
      ∀ m ∈ explored, v.pos ≠ m.pos := by
  intro v hv m hm
  rcases fold_relax_mem blocked t cur explored ws F v hv with h1 | ⟨w, _, hvw, _, hex⟩
  · exact h v h1 m hm
  · subst hvw
    intro hc
    have : explored.any (fun n => decide (n.pos = w)) = true :=
      List.any_eq_true.mpr ⟨m, hm, by simp [← hc]⟩
    rw [hex] at this
    cases this

/-! ### The A* frontier invariant arguments -/

theorem isWalk_append_split (g : Grid) (blocked : Cell → Bool) :
    ∀ (p : List Cell) (s w : Cell), isWalk g blocked s (p ++ [w]) →
      isWalk g blocked s p ∧ w ∈ g.neighbors (endOf s p) ∧ blocked w = false := by
  intro p
  induction p with
  | nil =>
    intro s w hw
    obtain ⟨h1, h2, _⟩ := hw
    exact ⟨trivial, by simpa [endOf] using h1, h2⟩
  | cons c q ih =>
    intro s w hw
    obtain ⟨h1, h2, h3⟩ := hw
    obtain ⟨h4, h5, h6⟩ := ih c w h3
    exact ⟨⟨h1, h2, h4⟩, by simpa [endOf_cons] using h5, h6⟩

theorem frontier_touch (g : Grid) (blocked : Cell → Bool) (s t : Cell)
    (frontier explored : List ANode) (inv : AInv g blocked s t frontier explored) :
    ∀ (q : List Cell), isWalk g blocked s q →
      (∃ m ∈ explored, m.pos = endOf s q ∧ m.g ≤ q.length) ∨
      (∃ m ∈ frontier, m.f ≤ q.length + manhattan (endOf s q) t) := by
  intro q
  induction q using List.reverseRecOn with
  | nil =>
    intro _
    obtain ⟨n, hn, hpos, hg⟩ := inv.startIn
    rcases List.mem_append.mp hn with hf | he
    · right
      refine ⟨n, hf, ?_⟩
      have hOK := inv.nodesOK n (List.mem_append_left _ hf)
      have : n.f = n.g + n.h := rfl
      rw [this, hOK.1, hpos, hg]
      simp [endOf]
    · left
      exact ⟨n, he, by simp [endOf, hpos], by simp [hg]⟩
  | append_singleton p w ih =>
    intro hw
    obtain ⟨hwp, hnb, hbl⟩ := isWalk_append_split g blocked p s w hw
    rw [endOf_append_one]
    rcases ih hwp with ⟨m, hm, hmp, hmg⟩ | ⟨m, hm, hmf⟩
    · rcases inv.closedRelaxed m hm w (by rw [hmp]; exact hnb) hbl with
        ⟨m2, hm2, hm2p⟩ | ⟨m2, hm2, hm2p, hm2g⟩
      · left
        refine ⟨m2, hm2, hm2p, ?_⟩
        exact inv.closedMinimal m2 hm2 (p ++ [w]) hw (by rw [endOf_append_one, hm2p])
      · right
        refine ⟨m2, hm2, ?_⟩
        have hOK := inv.nodesOK m2 (List.mem_append_left _ hm2)
        have hf : m2.f = m2.g + manhattan w t := by
          show m2.g + m2.h = m2.g + manhattan w t
          rw [hOK.1, hm2p]
        rw [hf]
        simp only [List.length_append, List.length_singleton]
        omega
    · right
      refine ⟨m, hm, ?_⟩
      have htri : manhattan (endOf s p) t ≤ 1 + manhattan w t := by
        have h1 : manhattan (endOf s p) w = 1 := mem_neighbors_manhattan g _ w hnb
        have := manhattan_triangle (endOf s p) w t
        omega
      simp only [List.length_append, List.length_singleton]
      omega

theorem pop_minimal (g : Grid) (blocked : Cell → Bool) (s t : Cell)
    (first : ANode) (rest explored : List ANode)
    (inv : AInv g blocked s t (first :: rest) explored) :
    ∀ (q : List Cell), isWalk g blocked s q → endOf s q = (selectMin first rest).pos →
      (selectMin first rest).g ≤ q.length := by
  intro q hq hend
  rcases frontier_touch g blocked s t (first :: rest) explored inv q hq with
    ⟨m, hm, hmp, _⟩ | ⟨m, hm, hmf⟩
  · exact absurd (hend ▸ hmp.symm)
      (inv.disjoint (selectMin first rest) (selectMin_mem first rest) m hm)
  · have hcf : (selectMin first rest).f ≤ m.f := selectMin_le_f first rest m hm
    have hOK := inv.nodesOK (selectMin first rest)
      (List.mem_append_left _ (selectMin_mem first rest))
    have hf : (selectMin first rest).f = (selectMin first rest).g + manhattan (endOf s q) t := by
      show (selectMin first rest).g + (selectMin first rest).h = _
      rw [hOK.1, hend]
    omega

theorem AInv_step (g : Grid) (blocked : Cell → Bool) (s t : Cell)
    (first : ANode) (rest explored : List ANode)
    (inv : AInv g blocked s t (first :: rest) explored)
    (hne : (selectMin first rest).pos ≠ t) :
    AInv g blocked s t
      ((g.neighbors (selectMin first rest).pos).foldl
        (relaxNeighbor blocked t (selectMin first rest) (selectMin first rest :: explored))
        ((first :: rest).eraseP (fun n => decide (n.pos = (selectMin first rest).pos))))
      (selectMin first rest :: explored) := by
  set cur := selectMin first rest with hcur
  have hcur_mem : cur ∈ first :: rest := selectMin_mem first rest
  have hcurOK : nodeOK g blocked s t cur := inv.nodesOK cur (List.mem_append_left _ hcur_mem)
  have hcur_valid : g.isValid cur.pos = true :=
    inv.validAll cur (List.mem_append_left _ hcur_mem)
  have hcur_min : ∀ q, isWalk g blocked s q → endOf s q = cur.pos → cur.g ≤ q.length :=
    pop_minimal g blocked s t first rest explored inv
  set F1 := (first :: rest).eraseP (fun n => decide (n.pos = cur.pos)) with hF1
  set E1 := cur :: explored with hE1
  have hF1sub : ∀ v ∈ F1, v ∈ first :: rest := fun v hv => List.mem_of_mem_eraseP hv
  have hF1ne : ∀ v ∈ F1, v.pos ≠ cur.pos := by
    intro v hv
    have := keys_eraseP_pos (first :: rest) cur.pos inv.frontierKeysNodup v hv
    intro hc
    exact this.2 hc cur hcur_mem rfl
  have hF1mem : ∀ v ∈ first :: rest, v.pos ≠ cur.pos → v ∈ F1 := by
    intro v hv hvne
    exact (List.mem_eraseP_of_neg (by simpa using hvne)).mpr hv
  have hF1nodup : (F1.map ANode.pos).Nodup :=
    List.Nodup.sublist ((List.eraseP_sublist _).map ANode.pos) inv.frontierKeysNodup
  have hF1E1disj : ∀ v ∈ F1, ∀ m ∈ E1, v.pos ≠ m.pos := by
    intro v hv m hm
    rcases List.mem_cons.mp hm with h | h
    · rw [h]
      exact hF1ne v hv
    · exact inv.disjoint v (hF1sub v hv) m h
  have hE1any : ∀ w : Cell, E1.any (fun n => decide (n.pos = w)) = false ↔
      (∀ m ∈ E1, m.pos ≠ w) := by
    intro w
    constructor
    · intro h m hm hc
      have : E1.any (fun n => decide (n.pos = w)) = true :=
        List.any_eq_true.mpr ⟨m, hm, by simp [hc]⟩
      rw [h] at this
      cases this
    · intro h
      by_contra hc
      rcases List.any_eq_true.mp (Bool.of_not_eq_false hc) with ⟨m, hm, hmp⟩
      exact h m hm (by simpa using hmp)
  set ws := g.neighbors cur.pos with hws
  set F2 := ws.foldl (relaxNeighbor blocked t cur E1) F1 with hF2
  have hnewOK : ∀ w ∈ ws, blocked w = false →
      nodeOK g blocked s t ⟨w, cur.g + 1, manhattan w t, cur.path ++ [w]⟩ := by
    intro w hw hbl
    refine ⟨rfl, ?_, ?_, ?_⟩
    · show cur.g + 1 = (cur.path ++ [w]).length
      rw [hcurOK.2.1]
      simp
    · exact isWalk_append_one g blocked s cur.path w hcurOK.2.2.1
        (by rw [hcurOK.2.2.2]; exact hw) hbl
    · exact endOf_append_one s w cur.path
  have hF2mem : ∀ v ∈ F2, v ∈ F1 ∨ (∃ w ∈ ws,
      v = ⟨w, cur.g + 1, manhattan w t, cur.path ++ [w]⟩ ∧ blocked w = false ∧
        E1.any (fun n => decide (n.pos = w)) = false) :=
    fun v hv => fold_relax_mem blocked t cur E1 ws F1 v hv
  refine ⟨?_, ?_, ?_, ?_, ?_, ?_, ?_, ?_, ?_⟩
  · -- nodesOK
    intro n hn
    rcases List.mem_append.mp hn with hf | he
    · rcases hF2mem n hf with h | ⟨w, hw, hvw, hbl, _⟩
      · exact inv.nodesOK n (List.mem_append_left _ (hF1sub n h))
      · rw [hvw]
        exact hnewOK w hw hbl
    · rcases List.mem_cons.mp he with h | h
      · rw [h]
        exact hcurOK
      · exact inv.nodesOK n (List.mem_append_right _ h)
  · -- frontierKeysNodup
    exact fold_relax_nodup blocked t cur E1 ws F1 hF1nodup
  · -- exploredKeysNodup
    simp only [hE1, List.map_cons, List.nodup_cons]
    refine ⟨?_, inv.exploredKeysNodup⟩
    intro hc
    rcases List.mem_map.mp hc with ⟨m, hm, hmp⟩
    exact inv.disjoint cur hcur_mem m hm hmp.symm
  · -- disjoint
    exact fold_relax_disjoint blocked t cur E1 ws F1 hF1E1disj
  · -- validAll
    intro n hn
    rcases List.mem_append.mp hn with hf | he
    · rcases hF2mem n hf with h | ⟨w, hw, hvw, _, _⟩
      · exact inv.validAll n (List.mem_append_left _ (hF1sub n h))
      · rw [hvw]
        exact mem_neighbors_valid g cur.pos w hw
    · rcases List.mem_cons.mp he with h | h
      · rw [h]
        exact hcur_valid
      · exact inv.validAll n (List.mem_append_right _ h)
  · -- closedMinimal
    intro n hn q hq hend
    rcases List.mem_cons.mp hn with h | h
    · rw [h]
      exact hcur_min q hq (by rw [hend, h])
    · exact inv.closedMinimal n h q hq hend
  · -- closedRelaxed
    intro n hn w hw hbl
    rcases List.mem_cons.mp hn with h | h
    · -- n = cur
      by_cases hwE : E1.any (fun m => decide (m.pos = w)) = false
      · right
        obtain ⟨v, hv, hvp, hvg⟩ :=
          fold_relax_new_bound blocked t cur E1 ws F1 w (by rw [h] at hw; exact hw) hbl hwE
        exact ⟨v, hv, hvp, by rw [h]; exact hvg⟩
      · left
        rcases List.any_eq_true.mp (Bool.of_not_eq_false hwE) with ⟨m, hm, hmp⟩
        exact ⟨m, hm, by simpa using hmp⟩
    · -- n in old explored
      rcases inv.closedRelaxed n h w hw hbl with ⟨m, hm, hmp⟩ | ⟨m, hm, hmp, hmg⟩
      · exact Or.inl ⟨m, List.mem_cons_of_mem _ hm, hmp⟩
      · by_cases hmc : m.pos = cur.pos
        · left
          refine ⟨cur, List.mem_cons_self _ _, ?_⟩
          rw [← hmc, hmp]
        · right
          exact fold_relax_preserve_bound blocked t cur E1 ws F1 w (n.g + 1)
            ⟨m, hF1mem m hm hmc, hmp, hmg⟩
  · -- startIn
    obtain ⟨n, hn, hpos, hg⟩ := inv.startIn
    rcases List.mem_append.mp hn with hf | he
    · by_cases hnc : n.pos = cur.pos
      · have : n = cur :=
          List.inj_on_of_nodup_map inv.frontierKeysNodup hf hcur_mem hnc
        refine ⟨cur, List.mem_append_right _ (List.mem_cons_self _ _), ?_, ?_⟩
        · rw [← this, hpos]
        · rw [← this, hg]
      · obtain ⟨v, hv, hvp, hvg⟩ :=
          fold_relax_preserve_bound blocked t cur E1 ws F1 n.pos 0
            ⟨n, hF1mem n hf hnc, rfl, by omega⟩
        exact ⟨v, List.mem_append_left _ hv, by rw [hvp, hpos], by omega⟩
    · exact ⟨n, List.mem_append_right _ (List.mem_cons_of_mem _ he), hpos, hg⟩
  · -- targetNotClosed
    intro n hn
    rcases List.mem_cons.mp hn with h | h
    · rw [h]
      exact hne
    · exact inv.targetNotClosed n h

theorem astarLoop_sound (g : Grid) (blocked : Cell → Bool) (s t : Cell) :
    ∀ (fuel : Nat) (frontier explored : List ANode),
      AInv g blocked s t frontier explored →
      ∀ r, astarLoop g blocked t fuel frontier explored = some r →
        (r = [] → (s = t ∨ ∀ q, isWalk g blocked s q → endOf s q ≠ t)) ∧
        (r ≠ [] → isWalk g blocked s r ∧ endOf s r = t ∧
          (∀ q, isWalk g blocked s q → endOf s q = t → r.length ≤ q.length)) := by
  intro fuel
  induction fuel with
  | zero =>
    intro frontier explored _ r hr
    cases hr
  | succ fuel ih =>
    intro frontier explored inv r hr
    cases frontier with
    | nil =>
      simp only [astarLoop] at hr
      have hre : r = [] := by
        cases hr
        rfl
      subst hre
      refine ⟨?_, fun h => absurd rfl h⟩
      intro _
      by_cases hst : s = t
      · exact Or.inl hst
      · right
        intro q hq hend
        rcases frontier_touch g blocked s t [] explored inv q hq with
          ⟨m, hm, hmp, _⟩ | ⟨m, hm, _⟩
        · exact inv.targetNotClosed m hm (by rw [hmp, hend])
        · cases hm
    | cons first rest =>
      simp only [astarLoop] at hr
      by_cases hpt : (selectMin first rest).pos = t
      · rw [if_pos hpt] at hr
        have hre : r = (selectMin first rest).path := by
          cases hr
          rfl
        subst hre
        have hOK := inv.nodesOK (selectMin first rest)
          (List.mem_append_left _ (selectMin_mem first rest))
        constructor
        · intro hnil
          left
          have := hOK.2.2.2
          rw [hnil] at this
          simp only [endOf, List.getLast?_nil, Option.getD_none] at this
          rw [this, hpt]
        · intro _
          refine ⟨hOK.2.2.1, by rw [hOK.2.2.2, hpt], ?_⟩
          intro q hq hend
          have := pop_minimal g blocked s t first rest explored inv q hq
            (by rw [hend, hpt])
          rw [← hOK.2.1]
          exact this
      · rw [if_neg hpt] at hr
        exact ih _ _ (AInv_step g blocked s t first rest explored inv hpt) r hr

theorem nodup_valid_length_le (g : Grid) (l : List Cell) (hnod : l.Nodup)
    (hval : ∀ c ∈ l, g.isValid c = true) : l.length ≤ g.width * g.height := by
  have hvx : ∀ c ∈ l, c.x < g.width ∧ c.y < g.height := by
    intro c hc
    have := hval c hc
    unfold Grid.isValid at this
    simp only [Bool.and_eq_true, decide_eq_true_eq] at this
    exact this
  have hw : ∀ c ∈ l, c.y * g.width + c.x < g.width * g.height := by
    intro c hc
    obtain ⟨hx, hy⟩ := hvx c hc
    have h1 : c.y * g.width + c.x < (c.y + 1) * g.width := by
      rw [Nat.add_mul, Nat.one_mul]
      omega
    have h2 : (c.y + 1) * g.width ≤ g.height * g.width := Nat.mul_le_mul_right _ (by omega)
    rw [Nat.mul_comm g.width g.height]
    omega
  have hinj : ∀ c1 ∈ l, ∀ c2 ∈ l,
      c1.y * g.width + c1.x = c2.y * g.width + c2.x → c1 = c2 := by
    intro c1 h1 c2 h2 heq
    obtain ⟨hx1, _⟩ := hvx c1 h1
    obtain ⟨hx2, _⟩ := hvx c2 h2
    have hxeq : c1.x = c2.x := by
      have e1 : (c1.y * g.width + c1.x) % g.width = c1.x := by
        rw [Nat.mul_comm, Nat.mul_add_mod]
        exact Nat.mod_eq_of_lt hx1
      have e2 : (c2.y * g.width + c2.x) % g.width = c2.x := by
        rw [Nat.mul_comm, Nat.mul_add_mod]
        exact Nat.mod_eq_of_lt hx2
      rw [← e1, ← e2, heq]
    have hyeq : c1.y = c2.y := by
      have hwpos : 0 < g.width := by omega
      have : c1.y * g.width = c2.y * g.width := by omega
      exact Nat.eq_of_mul_eq_mul_right hwpos this
    cases c1
    cases c2
    simp_all
  have hmapnod : (l.map (fun c => c.y * g.width + c.x)).Nodup :=
    List.Nodup.map_on hinj hnod
  have hsub : (l.map (fun c => c.y * g.width + c.x)).toFinset ⊆
      Finset.range (g.width * g.height) := by
    intro n hn
    rw [List.mem_toFinset] at hn
    rcases List.mem_map.mp hn with ⟨c, hc, hcn⟩
    rw [Finset.mem_range, ← hcn]
    exact hw c hc
  have hcard := Finset.card_le_card hsub
  rw [List.toFinset_card_of_nodup hmapnod, Finset.card_range, List.length_map] at hcard
  exact hcard

theorem astarLoop_isSome (g : Grid) (blocked : Cell → Bool) (s t : Cell) :
    ∀ (fuel : Nat) (frontier explored : List ANode),
      AInv g blocked s t frontier explored →
      g.width * g.height + 1 ≤ fuel + explored.length →
      (astarLoop g blocked t fuel frontier explored).isSome := by
  intro fuel
  induction fuel with
  | zero =>
    intro frontier explored inv hfuel
    exfalso
    have hval : ∀ c ∈ explored.map ANode.pos, g.isValid c = true := by
      intro c hc
      rcases List.mem_map.mp hc with ⟨n, hn, hnp⟩
      rw [← hnp]
      exact inv.validAll n (List.mem_append_right _ hn)
    have := nodup_valid_length_le g (explored.map ANode.pos) inv.exploredKeysNodup hval
    rw [List.length_map] at this
    omega
  | succ fuel ih =>
    intro frontier explored inv hfuel
    cases frontier with
    | nil => simp [astarLoop]
    | cons first rest =>
      simp only [astarLoop]
      by_cases hpt : (selectMin first rest).pos = t
      · rw [if_pos hpt]
        rfl
      · rw [if_neg hpt]
        refine ih _ _ (AInv_step g blocked s t first rest explored inv hpt) ?_
        simp only [List.length_cons]
        omega

theorem AInv_init (g : Grid) (blocked : Cell → Bool) (s t : Cell)
    (hs : g.isValid s = true) : AInv g blocked s t [startNode s t] [] := by
  refine ⟨?_, by simp, by simp, ?_, ?_, ?_, ?_, ?_, ?_⟩
  · intro n hn
    simp only [List.append_nil, List.mem_singleton] at hn
    subst hn
    exact ⟨rfl, rfl, trivial, rfl⟩
  · intro n hn m hm
    cases hm
  · intro n hn
    simp only [List.append_nil, List.mem_singleton] at hn
    subst hn
    exact hs
  · intro n hn
    cases hn
  · intro n hn
    cases hn
  · exact ⟨startNode s t, by simp, rfl, rfl⟩
  · intro n hn
    cases hn

theorem isCellBlocked_empty (selfId : Nat) (opts : AStarOptions) :
    isCellBlocked selfId [] opts = fun _ => false := by
  funext c
  unfold isCellBlocked
  by_cases h : opts.ignoreAgents <;> simp [h]

theorem AStar_spec (g : Grid) (blocked : Cell → Bool) (s t : Cell)
    (hs : g.isValid s = true) :
    (AStar g blocked s t ≠ [] →
      isWalk g blocked s (AStar g blocked s t) ∧
      endOf s (AStar g blocked s t) = t ∧
      s ∉ AStar g blocked s t ∧
      (∀ q, isWalk g blocked s q → endOf s q = t →
        (AStar g blocked s t).length ≤ q.length)) ∧
    (AStar g blocked s t = [] ↔
      (s = t ∨ ∀ q, isWalk g blocked s q → endOf s q ≠ t)) := by
  have hInv := AInv_init g blocked s t hs
  have hsome := astarLoop_isSome g blocked s t (g.width * g.height + 1)
    [startNode s t] [] hInv (by simp)
  obtain ⟨r, hr⟩ := Option.isSome_iff_exists.mp hsome
  have hA : AStar g blocked s t = r := by
    unfold AStar
    rw [hr]
    rfl
  have hsound := astarLoop_sound g blocked s t (g.width * g.height + 1)
    [startNode s t] [] hInv r hr
  refine ⟨?_, ?_⟩
  · intro h
    rw [hA] at h ⊢
    obtain ⟨hwalk, hend, hmin⟩ := hsound.2 h
    refine ⟨hwalk, hend, ?_, hmin⟩
    intro hmem
    obtain ⟨q, hq, hqe, hql⟩ := walk_shortcut g blocked s r s t hwalk hend hmem
    have := hmin q hq hqe
    omega
  · rw [hA]
    constructor
    · exact hsound.1
    · intro h
      by_contra hne
      obtain ⟨hwalk, hend, hmin⟩ := hsound.2 hne
      rcases h with h | h
      · have := hmin [] trivial (by simpa [endOf] using h)
        simp at this
        exact hne this
      · exact h r hwalk hend

/-- **C1.** The `Pathfinding.AStar` contract, for every grid, every agent
list, every obstacle policy and every pair of in-bounds cells: a non-empty
result is a 4-connected obstacle-free walk from the start (excluded) to the
target of minimal length among all such walks; the result is empty exactly
when the start equals the target or no walk reaches the target; and with an
empty agent list the result — in particular its length — is identical under
every obstacle policy. -/
theorem astar_contract (g : Grid) (selfId : Nat) (agents : List AgentSnap)
    (opts : AStarOptions) (s t : Cell) (hs : g.isValid s = true) :
    (AStarWith g selfId agents opts s t ≠ [] →
      isWalk g (isCellBlocked selfId agents opts) s (AStarWith g selfId agents opts s t) ∧
      endOf s (AStarWith g selfId agents opts s t) = t ∧
      s ∉ AStarWith g selfId agents opts s t ∧
      (∀ q, isWalk g (isCellBlocked selfId agents opts) s q → endOf s q = t →
        (AStarWith g selfId agents opts s t).length ≤ q.length)) ∧
    (AStarWith g selfId agents opts s t = [] ↔
      (s = t ∨ ∀ q, isWalk g (isCellBlocked selfId agents opts) s q → endOf s q ≠ t)) ∧
    (∀ o1 o2 : AStarOptions, AStarWith g selfId [] o1 s t = AStarWith g selfId [] o2 s t) := by
  have hspec := AStar_spec g (isCellBlocked selfId agents opts) s t hs
  refine ⟨hspec.1, hspec.2, ?_⟩
  intro o1 o2
  unfold AStarWith
  rw [isCellBlocked_empty selfId o1, isCellBlocked_empty selfId o2]

/-- Witness for C1 on a concrete 2×1 grid with in-bounds start `(0,0)`. -/
theorem astar_contract_witness :
    ((corridorGrid 2).isValid ⟨0, 0⟩ = true) ∧
    (AStarWith (corridorGrid 2) 0 [] { ignoreAgents := false, ignoreAgentIds := none }
        ⟨0, 0⟩ ⟨1, 0⟩ = [] ↔
      ((⟨0, 0⟩ : Cell) = ⟨1, 0⟩ ∨
        ∀ q, isWalk (corridorGrid 2)
            (isCellBlocked 0 [] { ignoreAgents := false, ignoreAgentIds := none }) ⟨0, 0⟩ q →
          endOf ⟨0, 0⟩ q ≠ ⟨1, 0⟩)) :=
  ⟨by decide,
    (astar_contract (corridorGrid 2) 0 [] { ignoreAgents := false, ignoreAgentIds := none }
      ⟨0, 0⟩ ⟨1, 0⟩ (by decide)).2.1⟩

/-! ### Tile-counting lemmas for the bottleneck analyzer -/

theorem addPathCounts_fold_get (c : Cell) :
    ∀ (p : List Cell) (m : List (Cell × Nat)) (seen : List Cell),
      mapGet ((p.foldl
        (fun acc tile =>
          if acc.2.contains tile then acc
          else (mapSet acc.1 tile ((mapGet acc.1 tile).getD 0 + 1), tile :: acc.2))
        (m, seen)).1) c =
      if c ∈ p ∧ c ∉ seen then some ((mapGet m c).getD 0 + 1) else mapGet m c := by
  intro p
  induction p with
  | nil =>
    intro m seen
    simp
  | cons tile rest ih =>
    intro m seen
    simp only [List.foldl_cons]
    by_cases hseen : seen.contains tile
    · rw [if_pos hseen]
      rw [ih m seen]
      have htile : tile ∈ seen := by
        simpa using hseen
      by_cases hc : c ∈ rest ∧ c ∉ seen
      · rw [if_pos hc, if_pos ⟨List.mem_cons_of_mem _ hc.1, hc.2⟩]
      · rw [if_neg hc, if_neg ?_]
        intro ⟨h1, h2⟩
        rcases List.mem_cons.mp h1 with h3 | h3
        · exact h2 (h3 ▸ htile)
        · exact hc ⟨h3, h2⟩
    · rw [if_neg hseen]
      have htile : tile ∉ seen := by
        simpa using hseen
      rw [ih (mapSet m tile ((mapGet m tile).getD 0 + 1)) (tile :: seen)]
      by_cases hct : c = tile
      · subst hct
        rw [if_neg (by simp), if_pos ⟨List.mem_cons_self _ _, htile⟩]
        exact mapGet_mapSet_self m c _
      · rw [mapGet_mapSet_ne m tile c _ hct]
        by_cases hc : c ∈ rest ∧ c ∉ seen
        · rw [if_pos ⟨hc.1, by simp [hct, hc.2]⟩, if_pos ⟨List.mem_cons_of_mem _ hc.1, hc.2⟩]
        · rw [if_neg ?_, if_neg ?_]
          · intro ⟨h1, h2⟩
            rcases List.mem_cons.mp h1 with h3 | h3
            · exact hct h3
            · exact hc ⟨h3, h2⟩
          · intro ⟨h1, h2⟩
            exact hc ⟨h1, fun h3 => h2 (List.mem_cons_of_mem _ h3)⟩

theorem mapGet_addPathCounts (m : List (Cell × Nat)) (p : List Cell) (c : Cell) :
    mapGet (addPathCounts m p) c =
      if c ∈ p then some ((mapGet m c).getD 0 + 1) else mapGet m c := by
  unfold addPathCounts
  rw [addPathCounts_fold_get c p m []]
  simp

theorem addPathCounts_keys_nodup (m : List (Cell × Nat)) (p : List Cell)
    (h : (m.map Prod.fst).Nodup) : ((addPathCounts m p).map Prod.fst).Nodup := by
  suffices hgen : ∀ (q : List Cell) (m0 : List (Cell × Nat)) (seen : List Cell),
      (m0.map Prod.fst).Nodup →
      (((q.foldl
        (fun acc tile =>
          if acc.2.contains tile then acc
          else (mapSet acc.1 tile ((mapGet acc.1 tile).getD 0 + 1), tile :: acc.2))
        (m0, seen)).1).map Prod.fst).Nodup by
    exact hgen p m []  h
  intro q
  induction q with
  | nil => intro m0 seen h0; exact h0
  | cons tile rest ih =>
    intro m0 seen h0
    simp only [List.foldl_cons]
    by_cases hseen : seen.contains tile
    · rw [if_pos hseen]
      exact ih m0 seen h0
    · rw [if_neg hseen]
      exact ih _ _ (mapSet_keys_nodup m0 tile _ h0)

theorem tileCounts_keys_nodup (paths : List (List Cell)) :
    ((tileCounts paths).map Prod.fst).Nodup := by
  unfold tileCounts
  suffices hgen : ∀ (ps : List (List Cell)) (m : List (Cell × Nat)),
      (m.map Prod.fst).Nodup → ((ps.foldl addPathCounts m).map Prod.fst).Nodup by
    exact hgen paths [] (by simp)
  intro ps
  induction ps with
  | nil => intro m h; exact h
  | cons p rest ih =>
    intro m h
    exact ih _ (addPathCounts_keys_nodup m p h)

theorem mem_iff_mapGet {V : Type} (m : List (Cell × V)) (h : (m.map Prod.fst).Nodup)
    (c : Cell) (v : V) : (c, v) ∈ m ↔ mapGet m c = some v := by
  induction m with
  | nil => simp [mapGet]
  | cons e rest ih =>
    simp only [List.map_cons, List.nodup_cons] at h
    constructor
    · intro hm
      rcases List.mem_cons.mp hm with h1 | h1
      · rw [← h1]
        simp [mapGet]
      · have hne : ¬(e.1 = c) := by
          intro hc
          exact h.1 (List.mem_map.mpr ⟨(c, v), h1, by rw [hc]⟩)
        simp only [mapGet, hne, if_false]
        exact (ih h.2).mp h1
    · intro hg
      simp only [mapGet] at hg
      by_cases he : e.1 = c
      · rw [if_pos he] at hg
        have he2 : e = (c, v) := by
          cases e
          simp_all
        rw [← he2]
        exact List.mem_cons_self _ _
      · rw [if_neg he] at hg
        exact List.mem_cons_of_mem _ ((ih h.2).mpr hg)

theorem mapGet_tileCounts (paths : List (List Cell)) (c : Cell) :
    mapGet (tileCounts paths) c =
      (if (paths.filter (fun p => decide (c ∈ p))).length = 0 then none
       else some (paths.filter (fun p => decide (c ∈ p))).length) := by
  unfold tileCounts
  induction paths using List.reverseRecOn with
  | nil => simp [mapGet]
  | append_singleton ps p ih =>
    rw [List.foldl_append, List.foldl_cons, List.foldl_nil, mapGet_addPathCounts]
    by_cases hc : c ∈ p
    · rw [if_pos hc, ih]
      rw [List.filter_append]
      simp only [List.filter_cons, hc, decide_true_eq_true]
      by_cases h0 : (ps.filter (fun p => decide (c ∈ p))).length = 0
      · simp [h0]
      · simp only [h0, if_false]
        simp [List.length_append]
    · rw [if_neg hc, ih]
      rw [List.filter_append]
      simp [List.filter_cons, hc]

theorem mem_bottleneckTiles (paths : List (List Cell)) (hne : paths ≠ []) (c : Cell) :
    c ∈ bottleneckTiles paths ↔ ∀ p ∈ paths, c ∈ p := by
  unfold bottleneckTiles
  rw [List.mem_filterMap]
  constructor
  · rintro ⟨⟨c2, n⟩, hmem, hf⟩
    have hcn : n = paths.length ∧ c2 = c := by
      by_cases hn : n = paths.length
      · rw [if_pos hn] at hf
        exact ⟨hn, by simpa using hf⟩
      · rw [if_neg hn] at hf
        cases hf
    obtain ⟨hn, hc2⟩ := hcn
    subst hn
    subst hc2
    have hget := (mem_iff_mapGet (tileCounts paths) (tileCounts_keys_nodup paths) c2
      paths.length).mp hmem
    rw [mapGet_tileCounts] at hget
    by_cases h0 : (paths.filter (fun p => decide (c2 ∈ p))).length = 0
    · rw [if_pos h0] at hget
      cases hget
    · rw [if_neg h0] at hget
      have hcount : (paths.filter (fun p => decide (c2 ∈ p))).length = paths.length := by
        simpa using hget
      intro p hp
      have := (List.filter_length_eq_length).mp hcount p hp
      simpa using this
  · intro hall
    refine ⟨(c, paths.length), ?_, by simp⟩
    rw [mem_iff_mapGet (tileCounts paths) (tileCounts_keys_nodup paths), mapGet_tileCounts]
    have hcount : (paths.filter (fun p => decide (c ∈ p))).length = paths.length :=
      List.filter_length_eq_length.mpr (fun p hp => by simpa using hall p hp)
    rw [hcount, if_neg (by simpa using hne)]

/-! ### Claims C10 and C3: the midpoint access and the feasibility gate -/

/-- **C10.** When `detectBottleneck` has found narrow bottleneck tiles, it
reads `primaryPath[Math.floor(primaryPath.length / 2)]` of the
representative-pair path and feeds it to `manhattanDistance`; nothing
checks that this path is non-empty.  When the representative pair admits no
path (or coincides), the indexing yields `undefined` and the call throws
instead of returning `null` — the embedding's `none` (first conjunct), and
this is reachable: on `crashGrid` (spawns `(0,0)` and `(5,2)`, delivery
`(2,0)`) the representative spawn is the isolated `(5,2)` and the analyzer
crashes (second conjunct). -/
theorem detect_bottleneck_midpoint_unchecked :
    (∀ (g : Grid) (spawns deliveries : List Cell) (rs rd : Cell),
      detectorPaths g spawns deliveries ≠ [] →
      narrowBottlenecks g (detectorPathLists g spawns deliveries) ≠ [] →
      findClosestTile spawns (calculateCentroid spawns) = some rs →
      findClosestTile deliveries (calculateCentroid deliveries) = some rd →
      AStarIgnore g rs rd = [] →
      detectBottleneck g spawns deliveries = none) ∧
    detectBottleneck crashGrid [⟨0, 0⟩, ⟨5, 2⟩] [⟨2, 0⟩] = none := by
  constructor
  · intro g spawns deliveries rs rd hpaths hnarrow hrs hrd hprim
    unfold detectBottleneck
    rw [if_neg (by simpa [List.isEmpty_iff] using hpaths)]
    have hpl : detectorPathLists g spawns deliveries =
        (detectorPaths g spawns deliveries).map (fun t => t.1) := rfl
    rw [← hpl] at *
    have hbne : bottleneckTiles (detectorPathLists g spawns deliveries) ≠ [] := by
      intro hb
      apply hnarrow
      unfold narrowBottlenecks
      rw [hb]
      rfl
    rw [if_neg (by simpa [List.isEmpty_iff] using hbne)]
    cases hn : narrowBottlenecks g (detectorPathLists g spawns deliveries) with
    | nil => exact absurd hn hnarrow
    | cons h0 tl =>
      rw [hrs, hrd]
      simp only [hprim]
      rfl
  · decide

/-- **C3.** Whenever `shouldUseHandover` returns a config, the chosen
handover tile is reachable, has at least two reachable neighbours, and the
agent-ignoring paths from the representative spawn to the handover tile and
from the handover tile to the representative delivery are non-empty; and
whenever the feasibility check fails on a detected bottleneck, the result
is `null` (fail closed to NORMAL mode). -/
theorem handover_feasibility_gate :
    (∀ (g : Grid) (spawns deliveries : List Cell) (cfg : HandoverConfig),
      shouldUseHandover g spawns deliveries = some (some cfg) →
      g.isReachable cfg.handoverTile = true ∧
      2 ≤ (g.neighbors cfg.handoverTile).length ∧
      AStarIgnore g cfg.spawnTile cfg.handoverTile ≠ [] ∧
      AStarIgnore g cfg.handoverTile cfg.deliveryTile ≠ []) ∧
    (∀ (g : Grid) (spawns deliveries : List Cell) (br : HandoverConfig),
      detectBottleneck g spawns deliveries = some (some br) →
      isHandoverPointFeasible g br.spawnTile br.deliveryTile br.handoverTile = false →
      shouldUseHandover g spawns deliveries = some none) := by
  constructor
  · intro g spawns deliveries cfg hres
    unfold shouldUseHandover at hres
    cases hdb : detectBottleneck g spawns deliveries with
    | none => rw [hdb] at hres; cases hres
    | some r =>
      cases r with
      | none => rw [hdb] at hres; cases hres
      | some br =>
        rw [hdb] at hres
        dsimp only at hres
        by_cases hf : isHandoverPointFeasible g br.spawnTile br.deliveryTile br.handoverTile
        · rw [if_pos hf] at hres
          have hbr : br = cfg := by
            cases hres
            rfl
          subst hbr
          unfold isHandoverPointFeasible at hf
          simp only [Bool.and_eq_true, Bool.not_eq_true', decide_eq_false_iff_not,
            not_lt] at hf
          refine ⟨hf.1.1.1, hf.1.1.2, ?_, ?_⟩
          · intro hc
            have := hf.1.2
            rw [hc] at this
            simp at this
          · intro hc
            have := hf.2
            rw [hc] at this
            simp at this
        · rw [if_neg hf] at hres
          cases hres
  · intro g spawns deliveries br hdb hf
    unfold shouldUseHandover
    rw [hdb]
    dsimp only
    rw [hf]
    simp

/-- Witness for C3: the 5-cell corridor, where the analyzer returns the
handover tile `(3,0)`. -/
theorem handover_feasibility_gate_witness :
    (shouldUseHandover (corridorGrid 5) [⟨0, 0⟩] [⟨4, 0⟩] =
      some (some ⟨⟨0, 0⟩, ⟨4, 0⟩, ⟨3, 0⟩, HandoverReason.single_path⟩)) ∧
    ((corridorGrid 5).isReachable ⟨3, 0⟩ = true ∧
      2 ≤ ((corridorGrid 5).neighbors ⟨3, 0⟩).length ∧
      AStarIgnore (corridorGrid 5) ⟨0, 0⟩ ⟨3, 0⟩ ≠ [] ∧
      AStarIgnore (corridorGrid 5) ⟨3, 0⟩ ⟨4, 0⟩ ≠ []) :=
  ⟨by decide,
    handover_feasibility_gate.1 (corridorGrid 5) [⟨0, 0⟩] [⟨4, 0⟩]
      ⟨⟨0, 0⟩, ⟨4, 0⟩, ⟨3, 0⟩, HandoverReason.single_path⟩ (by decide)⟩

/-- Witness for C10: the crash hypotheses hold at the concrete `crashGrid`
instance. -/
theorem detect_bottleneck_midpoint_unchecked_witness :
    (detectorPaths crashGrid [⟨0, 0⟩, ⟨5, 2⟩] [⟨2, 0⟩] ≠ [] ∧
     narrowBottlenecks crashGrid
       (detectorPathLists crashGrid [⟨0, 0⟩, ⟨5, 2⟩] [⟨2, 0⟩]) ≠ [] ∧
     findClosestTile [⟨0, 0⟩, ⟨5, 2⟩] (calculateCentroid [⟨0, 0⟩, ⟨5, 2⟩]) = some ⟨5, 2⟩ ∧
     findClosestTile [⟨2, 0⟩] (calculateCentroid [⟨2, 0⟩]) = some ⟨2, 0⟩ ∧
     AStarIgnore crashGrid ⟨5, 2⟩ ⟨2, 0⟩ = []) ∧
    detectBottleneck crashGrid [⟨0, 0⟩, ⟨5, 2⟩] [⟨2, 0⟩] = none :=
  ⟨⟨by decide, by decide, by decide, by decide, by decide⟩,
    detect_bottleneck_midpoint_unchecked.1 crashGrid [⟨0, 0⟩, ⟨5, 2⟩] [⟨2, 0⟩] ⟨5, 2⟩ ⟨2, 0⟩
      (by decide) (by decide) (by decide) (by decide) (by decide)⟩

/-! ### The 1-wide corridor family -/

theorem manhattan_mk (x1 y1 x2 y2 : Nat) :
    manhattan ⟨x1, y1⟩ ⟨x2, y2⟩ = (max x1 x2 - min x1 x2) + (max y1 y2 - min y1 y2) := by
  simp only [manhattan, manhattanDistance]
  omega

theorem manhattan_eq_zero {a b : Cell} (h : manhattan a b = 0) : a = b := by
  obtain ⟨x1, y1⟩ := a
  obtain ⟨x2, y2⟩ := b
  simp only [manhattan, manhattanDistance] at h
  simp only [Cell.mk.injEq]
  omega

theorem corridor_reachable (n : Nat) (c : Cell) :
    (corridorGrid n).isReachable c = true ↔ c.x < n ∧ c.y = 0 := by
  simp [corridorGrid, Grid.isReachable, Grid.isValid]

theorem corridor_neighbors (n x : Nat) (hx : x < n) :
    (corridorGrid n).neighbors ⟨x, 0⟩ =
      (if x + 1 < n then [(⟨x + 1, 0⟩ : Cell)] else []) ++
      (if x = 0 then [] else [(⟨x - 1, 0⟩ : Cell)]) := by
  have h2 : x - 1 < n := by omega
  have h3 : ¬ ((1 : Nat) < 1) := by omega
  by_cases h1 : x + 1 < n <;> by_cases h0 : x = 0
  · have h4 : 1 < n := by omega
    simp [Grid.neighbors, neighborCandidates, corridorGrid, Grid.isReachable, Grid.isValid,
      h0, h1, h2, h3, h4]
  · simp [Grid.neighbors, neighborCandidates, corridorGrid, Grid.isReachable, Grid.isValid,
      h0, h1, h2, h3]
  · have h4 : ¬ (1 < n) := by omega
    simp [Grid.neighbors, neighborCandidates, corridorGrid, Grid.isReachable, Grid.isValid,
      h0, h1, h2, h3, h4]
  · simp [Grid.neighbors, neighborCandidates, corridorGrid, Grid.isReachable, Grid.isValid,
      h0, h1, h2, h3]

theorem mem_corridor_neighbors (n x : Nat) (hx : x < n) (c : Cell) :
    c ∈ (corridorGrid n).neighbors ⟨x, 0⟩ ↔
      (x + 1 < n ∧ c = ⟨x + 1, 0⟩) ∨ (1 ≤ x ∧ c = ⟨x - 1, 0⟩) := by
  rw [corridor_neighbors n x hx]
  by_cases h1 : x + 1 < n <;> by_cases h0 : x = 0
  · rw [if_pos h1, if_pos h0]
    simp only [List.append_nil, List.mem_singleton]
    constructor
    · intro h
      exact Or.inl ⟨h1, h⟩
    · rintro (⟨_, h⟩ | ⟨h, _⟩)
      · exact h
      · omega
  · rw [if_pos h1, if_neg h0]
    simp only [List.mem_append, List.mem_singleton]
    constructor
    · rintro (h | h)
      · exact Or.inl ⟨h1, h⟩
      · exact Or.inr ⟨by omega, h⟩
    · rintro (⟨_, h⟩ | ⟨_, h⟩)
      · exact Or.inl h
      · exact Or.inr h
  · rw [if_neg h1, if_pos h0]
    simp only [List.append_nil]
    constructor
    · intro h
      exact absurd h (List.not_mem_nil c)
    · rintro (⟨h, _⟩ | ⟨h, _⟩) <;> omega
  · rw [if_neg h1, if_neg h0]
    simp only [List.nil_append, List.mem_singleton]
    constructor
    · intro h
      exact Or.inr ⟨by omega, h⟩
    · rintro (⟨h, _⟩ | ⟨_, h⟩)
      · omega
      · exact h

theorem corridor_neighbors_len_le (n x : Nat) (hx : x < n) :
    ((corridorGrid n).neighbors ⟨x, 0⟩).length ≤ 2 := by
  rw [corridor_neighbors n x hx]
  split_ifs <;> simp

theorem corridor_neighbors_len_two (n x : Nat) (h1 : 1 ≤ x) (h2 : x + 1 < n) :
    ((corridorGrid n).neighbors ⟨x, 0⟩).length = 2 := by
  rw [corridor_neighbors n x (by omega), if_pos h2, if_neg (by omega)]
  rfl

theorem rowPath_length (a b : Nat) : (rowPath a b).length = b - a := by
  simp [rowPath]

theorem rowPath_nil (a b : Nat) (h : b ≤ a) : rowPath a b = [] := by
  have h0 : b - a = 0 := by omega
  simp [rowPath, h0]

theorem rowPath_cons (a b : Nat) (h : a < b) :
    rowPath a b = ⟨a + 1, 0⟩ :: rowPath (a + 1) b := by
  unfold rowPath
  have hb : b - a = (b - (a + 1)) + 1 := by omega
  rw [hb, List.range_succ_eq_map, List.map_cons, List.map_map]
  congr 1
  apply List.map_congr_left
  intro i _
  show (⟨a + 1 + (i + 1), 0⟩ : Cell) = ⟨a + 1 + 1 + i, 0⟩
  congr 1
  omega

theorem mem_rowPath (a b : Nat) (c : Cell) :
    c ∈ rowPath a b ↔ c.y = 0 ∧ a < c.x ∧ c.x ≤ b := by
  obtain ⟨cx, cy⟩ := c
  simp only [rowPath, List.mem_map, List.mem_range, Cell.mk.injEq]
  constructor
  · rintro ⟨i, hi, hx, hy⟩
    refine ⟨hy.symm, by omega, by omega⟩
  · rintro ⟨hy, hl, hr⟩
    exact ⟨cx - a - 1, by omega, by omega, hy.symm⟩

theorem rowPath_nodup (a b : Nat) : (rowPath a b).Nodup := by
  refine List.Nodup.map_on ?_ (List.nodup_range _)
  intro i _ j _ h
  simp only [Cell.mk.injEq] at h
  omega

theorem rowPath_get (a b i : Nat) (h : i < b - a) :
    (rowPath a b).get? i = some ⟨a + 1 + i, 0⟩ := by
  simp [rowPath, List.get?_eq_getElem?, List.getElem?_map, List.getElem?_range h]

theorem rowPath_walk (n : Nat) :
    ∀ (k a b : Nat), b - a = k → a ≤ b → b < n →
      isWalk (corridorGrid n) (fun _ => false) ⟨a, 0⟩ (rowPath a b) ∧
      endOf ⟨a, 0⟩ (rowPath a b) = ⟨b, 0⟩ := by
  intro k
  induction k with
  | zero =>
    intro a b hk hab hb
    have hab2 : a = b := by omega
    subst hab2
    rw [rowPath_nil a a (le_refl a)]
    exact ⟨trivial, rfl⟩
  | succ k ih =>
    intro a b hk hab hb
    have hlt : a < b := by omega
    rw [rowPath_cons a b hlt]
    have hmem : (⟨a + 1, 0⟩ : Cell) ∈ (corridorGrid n).neighbors ⟨a, 0⟩ := by
      rw [mem_corridor_neighbors n a (by omega)]
      exact Or.inl ⟨by omega, rfl⟩
    have hih := ih (a + 1) b (by omega) (by omega) hb
    refine ⟨⟨hmem, rfl, hih.1⟩, ?_⟩
    rw [endOf_cons]
    exact hih.2

theorem rowPath_walk_of_le (n a b : Nat) (hab : a ≤ b) (hb : b < n) :
    isWalk (corridorGrid n) (fun _ => false) ⟨a, 0⟩ (rowPath a b) ∧
    endOf ⟨a, 0⟩ (rowPath a b) = ⟨b, 0⟩ :=
  rowPath_walk n (b - a) a b rfl hab hb

theorem corridor_walk_unique (n b : Nat) (hb : b < n) :
    ∀ (q : List Cell) (a : Nat), a ≤ b →
      isWalk (corridorGrid n) (fun _ => false) ⟨a, 0⟩ q →
      endOf ⟨a, 0⟩ q = ⟨b, 0⟩ → q.length = b - a → q = rowPath a b := by
  intro q
  induction q with
  | nil =>
    intro a hab hw hend hlen
    simp only [List.length_nil] at hlen
    rw [rowPath_nil a b (by omega)]
  | cons c rest ih =>
    intro a hab hw hend hlen
    obtain ⟨hc, _, hwr⟩ := hw
    simp only [List.length_cons] at hlen
    have hlt : a < b := by omega
    rw [mem_corridor_neighbors n a (by omega)] at hc
    rcases hc with ⟨h1, hceq⟩ | ⟨h1, hceq⟩
    · subst hceq
      have hend2 : endOf ⟨a + 1, 0⟩ rest = ⟨b, 0⟩ := by
        rw [← endOf_cons ⟨a, 0⟩ ⟨a + 1, 0⟩ rest]
        exact hend
      have hrest := ih (a + 1) (by omega) hwr hend2 (by omega)
      rw [rowPath_cons a b hlt, hrest]
    · subst hceq
      exfalso
      have hend2 : endOf ⟨a - 1, 0⟩ rest = ⟨b, 0⟩ := by
        rw [← endOf_cons ⟨a, 0⟩ ⟨a - 1, 0⟩ rest]
        exact hend
      have hge := walk_length_ge (corridorGrid n) (fun _ => false) rest ⟨a - 1, 0⟩ hwr
      rw [hend2] at hge
      have hman : manhattan ⟨a - 1, 0⟩ ⟨b, 0⟩ = b - a + 1 := by
        rw [manhattan_mk]
        omega
      rw [hman] at hge
      omega

theorem astar_corridor (n a b : Nat) (hab : a ≤ b) (hb : b < n) :
    AStarIgnore (corridorGrid n) ⟨a, 0⟩ ⟨b, 0⟩ = rowPath a b := by
  show AStar (corridorGrid n) (fun _ => false) ⟨a, 0⟩ ⟨b, 0⟩ = rowPath a b
  have hvalid : (corridorGrid n).isValid ⟨a, 0⟩ = true := by
    simp [corridorGrid, Grid.isValid]
    omega
  have hspec := AStar_spec (corridorGrid n) (fun _ => false) ⟨a, 0⟩ ⟨b, 0⟩ hvalid
  by_cases heq : a = b
  · subst heq
    rw [rowPath_nil a a (le_refl a)]
    exact hspec.2.mpr (Or.inl rfl)
  · have hrw := rowPath_walk_of_le n a b hab hb
    have hne : AStar (corridorGrid n) (fun _ => false) ⟨a, 0⟩ ⟨b, 0⟩ ≠ [] := by
      intro hnil
      rcases hspec.2.mp hnil with h | h
      · simp only [Cell.mk.injEq] at h
        exact heq h.1
      · exact h (rowPath a b) hrw.1 hrw.2
    obtain ⟨hwalk, hend, _, hmin⟩ := hspec.1 hne
    have hlen_le :
        (AStar (corridorGrid n) (fun _ => false) ⟨a, 0⟩ ⟨b, 0⟩).length ≤ b - a := by
      have h := hmin (rowPath a b) hrw.1 hrw.2
      rw [rowPath_length] at h
      exact h
    have hlen_ge :
        b - a ≤ (AStar (corridorGrid n) (fun _ => false) ⟨a, 0⟩ ⟨b, 0⟩).length := by
      have hge := walk_length_ge (corridorGrid n) (fun _ => false)
        (AStar (corridorGrid n) (fun _ => false) ⟨a, 0⟩ ⟨b, 0⟩) ⟨a, 0⟩ hwalk
      rw [hend] at hge
      have hman : manhattan ⟨a, 0⟩ ⟨b, 0⟩ = b - a := by
        rw [manhattan_mk]
        omega
      rw [hman] at hge
      exact hge
    exact corridor_walk_unique n b hb
      (AStar (corridorGrid n) (fun _ => false) ⟨a, 0⟩ ⟨b, 0⟩) a hab hwalk hend (by omega)

/-! ### Evaluating the detector stages on a single path -/

theorem mapSet_fresh {K V : Type} [DecidableEq K] (l : List (K × V)) (k : K) (v : V)
    (h : k ∉ l.map Prod.fst) : mapSet l k v = l ++ [(k, v)] := by
  induction l with
  | nil => rfl
  | cons e rest ih =>
    simp only [List.map_cons, List.mem_cons] at h
    push_neg at h
    have he : ¬(e.1 = k) := fun hh => h.1 hh.symm
    simp only [mapSet, he, if_false, List.cons_append]
    rw [ih h.2]

theorem addPathCounts_fresh :
    ∀ (rest : List Cell) (m : List (Cell × Nat)) (seen : List Cell),
      rest.Nodup → (∀ c ∈ rest, c ∉ seen) → (∀ c ∈ rest, c ∉ m.map Prod.fst) →
      (rest.foldl
        (fun acc tile =>
          if acc.2.contains tile then acc
          else (mapSet acc.1 tile ((mapGet acc.1 tile).getD 0 + 1), tile :: acc.2))
        (m, seen)).1 = m ++ rest.map (fun c => (c, 1)) := by
  intro rest
  induction rest with
  | nil =>
    intro m seen _ _ _
    simp
  | cons tile rest ih =>
    intro m seen hnd hseen hm
    simp only [List.nodup_cons] at hnd
    simp only [List.foldl_cons]
    have h1 : ¬((m, seen).2.contains tile = true) := by
      simp only []
      have := hseen tile (List.mem_cons_self _ _)
      simpa using this
    rw [if_neg h1]
    have hget : mapGet m tile = none :=
      mapGet_eq_none m tile (hm tile (List.mem_cons_self _ _))
    have hset : mapSet m tile ((mapGet m tile).getD 0 + 1) = m ++ [(tile, 1)] := by
      rw [hget]
      exact mapSet_fresh m tile 1 (hm tile (List.mem_cons_self _ _))
    have hstep := ih (m ++ [(tile, 1)]) (tile :: seen) hnd.2
      (by
        intro c hc
        simp only [List.mem_cons]
        push_neg
        exact ⟨fun hch => hnd.1 (hch ▸ hc), hseen c (List.mem_cons_of_mem _ hc)⟩)
      (by
        intro c hc
        simp only [List.map_append, List.mem_append]
        push_neg
        refine ⟨hm c (List.mem_cons_of_mem _ hc), ?_⟩
        simp only [List.map_cons, List.map_nil, List.mem_singleton]
        exact fun hch => hnd.1 (hch ▸ hc))
    calc ((rest.foldl
        (fun acc tile =>
          if acc.2.contains tile then acc
          else (mapSet acc.1 tile ((mapGet acc.1 tile).getD 0 + 1), tile :: acc.2))
        (mapSet (m, seen).1 tile ((mapGet (m, seen).1 tile).getD 0 + 1),
          tile :: (m, seen).2)).1)
        = ((rest.foldl
        (fun acc tile =>
          if acc.2.contains tile then acc
          else (mapSet acc.1 tile ((mapGet acc.1 tile).getD 0 + 1), tile :: acc.2))
        (m ++ [(tile, 1)], tile :: seen)).1) := by rw [show (m, seen).1 = m from rfl,
          show (m, seen).2 = seen from rfl, hset]
      _ = m ++ [(tile, 1)] ++ rest.map (fun c => (c, 1)) := hstep
      _ = m ++ (tile :: rest).map (fun c => (c, 1)) := by simp

theorem tileCounts_single (p : List Cell) (h : p.Nodup) :
    tileCounts [p] = p.map (fun c => (c, 1)) := by
  unfold tileCounts
  rw [List.foldl_cons, List.foldl_nil]
  unfold addPathCounts
  have := addPathCounts_fresh p [] [] h (by simp) (by simp)
  simpa using this

theorem bottleneckTiles_single (p : List Cell) (h : p.Nodup) :
    bottleneckTiles [p] = p := by
  unfold bottleneckTiles
  rw [tileCounts_single p h]
  rw [List.filterMap_map]
  have hfun : ((fun (e : Cell × Nat) =>
      if e.2 = ([p] : List (List Cell)).length then some e.1 else none) ∘
      (fun c => (c, 1))) = fun c => some c := by
    funext c
    simp
  rw [hfun]
  clear h
  induction p with
  | nil => rfl
  | cons c rest ih => simp [List.filterMap_cons, ih]

theorem narrowBottlenecks_single (g : Grid) (p : List Cell) (h : p.Nodup)
    (hall : ∀ c ∈ p, (g.neighbors c).length ≤ 2) :
    narrowBottlenecks g [p] = p := by
  unfold narrowBottlenecks
  rw [bottleneckTiles_single p h]
  rw [List.filter_eq_self]
  intro c hc
  simpa using hall c hc

theorem findClosestTile_singleton (c pos : Cell) : findClosestTile [c] pos = some c := by
  simp [findClosestTile]

theorem pickBestHandover_le_init (mid : Cell) :
    ∀ (l : List Cell) (acc : Cell),
      manhattan mid (pickBestHandover mid acc l) ≤ manhattan mid acc := by
  intro l
  induction l with
  | nil =>
    intro acc
    exact le_refl _
  | cons d rest ih =>
    intro acc
    show manhattan mid (pickBestHandover mid
      (if manhattan mid d < manhattan mid acc then d else acc) rest) ≤ manhattan mid acc
    by_cases h : manhattan mid d < manhattan mid acc
    · rw [if_pos h]
      have := ih d
      omega
    · rw [if_neg h]
      exact ih acc

theorem pickBestHandover_le_mem (mid : Cell) :
    ∀ (l : List Cell) (acc : Cell) (c : Cell), c ∈ l →
      manhattan mid (pickBestHandover mid acc l) ≤ manhattan mid c := by
  intro l
  induction l with
  | nil =>
    intro acc c hc
    cases hc
  | cons d rest ih =>
    intro acc c hc
    show manhattan mid (pickBestHandover mid
      (if manhattan mid d < manhattan mid acc then d else acc) rest) ≤ manhattan mid c
    rcases List.mem_cons.mp hc with h | h
    · subst h
      by_cases hlt : manhattan mid c < manhattan mid acc
      · rw [if_pos hlt]
        exact pickBestHandover_le_init mid rest c
      · rw [if_neg hlt]
        have := pickBestHandover_le_init mid rest acc
        omega
    · exact ih _ c h

theorem pickBestHandover_self (mid h0 : Cell) (narrow : List Cell) (h : mid ∈ narrow) :
    pickBestHandover mid h0 narrow = mid := by
  have hle := pickBestHandover_le_mem mid narrow h0 mid h
  have hmm : manhattan mid mid = 0 := by
    simp [manhattan, manhattanDistance]
  rw [hmm] at hle
  have hz : manhattan mid (pickBestHandover mid h0 narrow) = 0 := by omega
  exact (manhattan_eq_zero hz).symm

theorem detectorPaths_single (g : Grid) (s d : Cell) (h : AStarIgnore g s d ≠ []) :
    detectorPaths g [s] [d] = [(AStarIgnore g s d, s, d)] := by
  unfold detectorPaths
  simp [List.isEmpty_iff, h]

theorem corridor_detectBottleneck (n : Nat) (hn : 2 ≤ n) :
    detectBottleneck (corridorGrid n) [⟨0, 0⟩] [⟨n - 1, 0⟩] =
      some (some ⟨⟨0, 0⟩, ⟨n - 1, 0⟩, ⟨(n - 1) / 2 + 1, 0⟩, HandoverReason.single_path⟩) := by
  have hA : AStarIgnore (corridorGrid n) ⟨0, 0⟩ ⟨n - 1, 0⟩ = rowPath 0 (n - 1) :=
    astar_corridor n 0 (n - 1) (by omega) (by omega)
  have hlen : (rowPath 0 (n - 1)).length = n - 1 := by
    rw [rowPath_length]
    omega
  have hne : rowPath 0 (n - 1) ≠ [] := by
    intro h0
    rw [h0] at hlen
    simp at hlen
    omega
  have hdp : detectorPaths (corridorGrid n) [⟨0, 0⟩] [⟨n - 1, 0⟩] =
      [(rowPath 0 (n - 1), ⟨0, 0⟩, ⟨n - 1, 0⟩)] := by
    rw [detectorPaths_single _ _ _ (by rw [hA]; exact hne), hA]
  have hnodup := rowPath_nodup 0 (n - 1)
  have hmemall : ∀ c ∈ rowPath 0 (n - 1), ((corridorGrid n).neighbors c).length ≤ 2 := by
    intro c hc
    rw [mem_rowPath] at hc
    have hceq : c = ⟨c.x, 0⟩ := by
      obtain ⟨cx, cy⟩ := c
      have hy : cy = 0 := hc.1
      rw [hy]
    rw [hceq]
    apply corridor_neighbors_len_le n c.x
    omega
  have hmid : (rowPath 0 (n - 1)).get? ((rowPath 0 (n - 1)).length / 2) =
      some ⟨(n - 1) / 2 + 1, 0⟩ := by
    rw [hlen]
    have harith : 0 + 1 + (n - 1) / 2 = (n - 1) / 2 + 1 := by omega
    rw [rowPath_get 0 (n - 1) ((n - 1) / 2) (by omega), harith]
  have hmidmem : (⟨(n - 1) / 2 + 1, 0⟩ : Cell) ∈ rowPath 0 (n - 1) := by
    rw [mem_rowPath]
    refine ⟨rfl, ?_, ?_⟩
    · show 0 < (n - 1) / 2 + 1
      omega
    · show (n - 1) / 2 + 1 ≤ n - 1
      omega
  have hcons : rowPath 0 (n - 1) = ⟨1, 0⟩ :: rowPath 1 (n - 1) := by
    have h := rowPath_cons 0 (n - 1) (by omega)
    simpa using h
  unfold detectBottleneck
  rw [hdp]
  rw [if_neg (by simp)]
  simp only [List.map_cons, List.map_nil]
  rw [if_neg (by
    rw [bottleneckTiles_single _ hnodup]
    simpa [List.isEmpty_iff] using hne)]
  rw [narrowBottlenecks_single _ _ hnodup hmemall]
  rw [findClosestTile_singleton, findClosestTile_singleton]
  rw [hcons]
  dsimp only
  rw [← hcons, hA, hmid]
  dsimp only
  rw [pickBestHandover_self _ _ _ hmidmem]
  rw [if_pos (by
    rw [bottleneckTiles_single _ hnodup, hlen]
    omega)]

theorem corridor_shouldUseHandover (n : Nat) (hn : 4 ≤ n) :
    shouldUseHandover (corridorGrid n) [⟨0, 0⟩] [⟨n - 1, 0⟩] =
      some (some ⟨⟨0, 0⟩, ⟨n - 1, 0⟩, ⟨(n - 1) / 2 + 1, 0⟩, HandoverReason.single_path⟩) := by
  have hdb := corridor_detectBottleneck n (by omega)
  have hfeas : isHandoverPointFeasible (corridorGrid n) ⟨0, 0⟩ ⟨n - 1, 0⟩
      ⟨(n - 1) / 2 + 1, 0⟩ = true := by
    have h1 : (corridorGrid n).isReachable ⟨(n - 1) / 2 + 1, 0⟩ = true := by
      rw [corridor_reachable]
      refine ⟨?_, rfl⟩
      show (n - 1) / 2 + 1 < n
      omega
    have h2 : ((corridorGrid n).neighbors ⟨(n - 1) / 2 + 1, 0⟩).length = 2 :=
      corridor_neighbors_len_two n ((n - 1) / 2 + 1) (by omega) (by omega)
    have h3 : AStarIgnore (corridorGrid n) ⟨0, 0⟩ ⟨(n - 1) / 2 + 1, 0⟩ =
        rowPath 0 ((n - 1) / 2 + 1) :=
      astar_corridor n 0 ((n - 1) / 2 + 1) (by omega) (by omega)
    have h4 : AStarIgnore (corridorGrid n) ⟨(n - 1) / 2 + 1, 0⟩ ⟨n - 1, 0⟩ =
        rowPath ((n - 1) / 2 + 1) (n - 1) :=
      astar_corridor n ((n - 1) / 2 + 1) (n - 1) (by omega) (by omega)
    have e3 : rowPath 0 ((n - 1) / 2 + 1) ≠ [] := by
      intro h
      have hl := rowPath_length 0 ((n - 1) / 2 + 1)
      rw [h] at hl
      simp at hl
    have e4 : rowPath ((n - 1) / 2 + 1) (n - 1) ≠ [] := by
      intro h
      have hl := rowPath_length ((n - 1) / 2 + 1) (n - 1)
      rw [h] at hl
      simp at hl
      omega
    unfold isHandoverPointFeasible
    rw [h1, h2, h3, h4]
    simp [List.isEmpty_iff, e3, e4]
  unfold shouldUseHandover
  rw [hdb]
  dsimp only
  rw [hfeas]
  rfl

theorem corridor_small (n : Nat) (hn : n ≤ 3) :
    shouldUseHandover (corridorGrid n) [⟨0, 0⟩] [⟨n - 1, 0⟩] = some none := by
  interval_cases n <;> rfl

/-! ### Claim C2: the bottleneck analysis -/

/-- **C2 counterexample.** `corridorGrid 3` is a map consisting of exactly
one 1-wide corridor connecting the spawn `(0,0)` to the delivery `(2,0)`
(first conjunct: the corridor path exists), yet `shouldUseHandover`
returns `null` (second conjunct): the selected handover tile is the
corridor midpoint-index tile `(2,0)`, the delivery endpoint, which has
only one reachable neighbour, so the feasibility gate rejects it.  This
refutes the claim's unconditional "non-none for every 1-wide corridor
map". -/
theorem corridor_three_counterexample :
    AStarIgnore (corridorGrid 3) ⟨0, 0⟩ ⟨2, 0⟩ = [⟨1, 0⟩, ⟨2, 0⟩] ∧
    shouldUseHandover (corridorGrid 3) [⟨0, 0⟩] [⟨2, 0⟩] = some none := by
  constructor
  · decide
  · decide

/-- **C2 (amended).** The bottleneck analysis of
`HandoverDetector.shouldUseHandover`: (i) the tile-count map counts a tile
once per path containing it, regardless of revisits; (ii) a tile is a hard
bottleneck exactly when it lies on every computed path; (iii) whenever no
hard-bottleneck tile with at most two reachable neighbours exists the
result is `null`; (iv) in particular the two-disjoint-corridor map yields
`null`; (v) for a single 1-wide corridor of at least 4 tiles the analyzer
returns a non-none config whose handover tile lies on the corridor path
and has exactly two reachable neighbours; (vi) corrected against the
original claim: for a 1-wide corridor of at most 3 tiles the chosen tile
is an endpoint failing the feasibility gate and the result is `null`, not
a config. -/
theorem bottleneck_analysis_contract :
    (∀ (paths : List (List Cell)) (c : Cell) (k : Nat),
      mapGet (tileCounts paths) c = some k →
      k = (paths.filter (fun p => decide (c ∈ p))).length) ∧
    (∀ (paths : List (List Cell)), paths ≠ [] → ∀ c : Cell,
      (c ∈ bottleneckTiles paths ↔ ∀ p ∈ paths, c ∈ p)) ∧
    (∀ (g : Grid) (spawns deliveries : List Cell),
      (∀ c ∈ bottleneckTiles (detectorPathLists g spawns deliveries),
        2 < (g.neighbors c).length) →
      shouldUseHandover g spawns deliveries = some none) ∧
    shouldUseHandover twoCorridorGrid [⟨0, 0⟩, ⟨0, 2⟩] [⟨2, 0⟩, ⟨2, 2⟩] = some none ∧
    (∀ n : Nat, 4 ≤ n →
      shouldUseHandover (corridorGrid n) [⟨0, 0⟩] [⟨n - 1, 0⟩] =
        some (some ⟨⟨0, 0⟩, ⟨n - 1, 0⟩, ⟨(n - 1) / 2 + 1, 0⟩, HandoverReason.single_path⟩) ∧
      (⟨(n - 1) / 2 + 1, 0⟩ : Cell) ∈ AStarIgnore (corridorGrid n) ⟨0, 0⟩ ⟨n - 1, 0⟩ ∧
      (corridorGrid n).isReachable ⟨(n - 1) / 2 + 1, 0⟩ = true ∧
      ((corridorGrid n).neighbors ⟨(n - 1) / 2 + 1, 0⟩).length = 2) ∧
    (∀ n : Nat, n ≤ 3 →
      shouldUseHandover (corridorGrid n) [⟨0, 0⟩] [⟨n - 1, 0⟩] = some none) := by
  refine ⟨?_, ?_, ?_, ?_, ?_, ?_⟩
  · intro paths c k h
    rw [mapGet_tileCounts] at h
    by_cases h0 : (paths.filter (fun p => decide (c ∈ p))).length = 0
    · rw [if_pos h0] at h
      cases h
    · rw [if_neg h0] at h
      exact (Option.some.inj h).symm
  · exact fun paths hne c => mem_bottleneckTiles paths hne c
  · intro g spawns deliveries hwide
    have hnarrow : narrowBottlenecks g (detectorPathLists g spawns deliveries) = [] := by
      unfold narrowBottlenecks
      rw [List.filter_eq_nil_iff]
      intro c hc
      have h2 := hwide c hc
      simp
      omega
    have hdb : detectBottleneck g spawns deliveries = some none := by
      unfold detectBottleneck
      by_cases hemp : (detectorPaths g spawns deliveries).isEmpty
      · rw [if_pos hemp]
      · rw [if_neg hemp]
        by_cases hbt :
            (bottleneckTiles ((detectorPaths g spawns deliveries).map (fun t => t.1))).isEmpty
        · rw [if_pos hbt]
        · rw [if_neg hbt]
          have h2 : narrowBottlenecks g
              ((detectorPaths g spawns deliveries).map (fun t => t.1)) = [] := hnarrow
          rw [h2]
    unfold shouldUseHandover
    rw [hdb]
  · decide
  · intro n hn
    refine ⟨corridor_shouldUseHandover n hn, ?_, ?_, ?_⟩
    · rw [astar_corridor n 0 (n - 1) (by omega) (by omega), mem_rowPath]
      refine ⟨rfl, ?_, ?_⟩
      · show 0 < (n - 1) / 2 + 1
        omega
      · show (n - 1) / 2 + 1 ≤ n - 1
        omega
    · rw [corridor_reachable]
      refine ⟨?_, rfl⟩
      show (n - 1) / 2 + 1 < n
      omega
    · exact corridor_neighbors_len_two n ((n - 1) / 2 + 1) (by omega) (by omega)
  · exact fun n hn => corridor_small n hn

/-- Witness for C2: the counting conjunct at two concrete paths sharing
tile `(1,0)`, the corridor conjunct at the 6-tile corridor (handover tile
`(3,0)`), and the short-corridor conjunct at the 3-tile corridor. -/
theorem bottleneck_analysis_contract_witness :
    (mapGet (tileCounts [[(⟨1, 0⟩ : Cell)], [⟨1, 0⟩, ⟨2, 0⟩]]) ⟨1, 0⟩ = some 2 ∧
      2 = ([[(⟨1, 0⟩ : Cell)], [⟨1, 0⟩, ⟨2, 0⟩]].filter
        (fun p => decide ((⟨1, 0⟩ : Cell) ∈ p))).length) ∧
    (4 ≤ 6 ∧
      shouldUseHandover (corridorGrid 6) [⟨0, 0⟩] [⟨5, 0⟩] =
        some (some ⟨⟨0, 0⟩, ⟨5, 0⟩, ⟨3, 0⟩, HandoverReason.single_path⟩)) ∧
    (3 ≤ 3 ∧ shouldUseHandover (corridorGrid 3) [⟨0, 0⟩] [⟨2, 0⟩] = some none) := by
  refine ⟨⟨by decide, ?_⟩, ⟨by decide, ?_⟩, ⟨by decide, ?_⟩⟩
  · exact bottleneck_analysis_contract.1 [[⟨1, 0⟩], [⟨1, 0⟩, ⟨2, 0⟩]] ⟨1, 0⟩ 2 (by decide)
  · exact (bottleneck_analysis_contract.2.2.2.2.1 6 (by decide)).1
  · exact bottleneck_analysis_contract.2.2.2.2.2 3 (by decide)
